import Mathlib

/-!
Verification of the vectorized-environment execution engine
(`gymnasium/experimental/vector/async_vector_env.py`,
`gymnasium/vector/vector_env.py`,
`gymnasium/wrappers/vector/dict_info_to_list.py`)
as a shallow embedding in Lean 4.

Conventions of the embedding:
* Python exceptions are modeled with `Except PyErr`; a mutation that happened
  before the raise is kept in the returned state (state-passing style).
* A call that would block forever (`Connection.recv` on an empty pipe,
  `Queue.get` on an empty queue) is marked with the explicit error
  `PyErr.wouldBlock`.
* `multiprocessing` pipes are modeled as explicit message queues; `pipe.poll(delta)`
  (whether data arrives within the allotted deadline) is abstracted by the
  boolean field `Pipe.ready`.
* `deepcopy` of pure data is the identity; numpy arrays are Lean lists;
  rewards (Python floats, only ever compared with the literal `0.0` by the
  properties checked here) are modeled as `Int`.
-/

namespace GymVec

/-- Python's `name.startswith("_")`: whether the first character is an
underscore (an executable rendering of `String.startsWith name "_"`). -/
def startsWithUnderscore (s : String) : Bool :=
  match s.data with
  | [] => false
  | c :: _ => c = '_'

/-- Enum `AsyncState` (async_vector_env.py lines 47-51). -/
inductive AsyncState
  | DEFAULT
  | WAITING_RESET
  | WAITING_STEP
  | WAITING_CALL
deriving DecidableEq, Repr

/-- The `.value` string of each `AsyncState` member (lines 48-51). -/
def AsyncState.value : AsyncState → String
  | .DEFAULT => "default"
  | .WAITING_RESET => "reset"
  | .WAITING_STEP => "step"
  | .WAITING_CALL => "call"

/-- Python exceptions raised by the engine and its helpers. -/
inductive PyErr
  | AlreadyPendingCallError (message stateValue : String)
  | NoAsyncCallError (message stateValue : String)
  | ClosedEnvironmentError (message : String)
  | TimeoutError (message : String)
  | workerError (exctype excvalue : String)
  | osErrorClosedHandle
  | attributeErrorNone
  | attributeError (message : String)
  | typeError (message : String)
  | valueError (message : String)
  | keyError (message : String)
  | assertionError
  | indexError
  | wouldBlock
deriving DecidableEq, Repr

/-- Messages emitted through `gymnasium.logger` by the engine. -/
inductive LogMsg
  | errorFromWorker (index : Nat) (exctype excvalue : String)
  | shuttingDownWorker (index : Nat)
  | raisingLastException
  | closeWhilePending (stateValue : String)
deriving DecidableEq, Repr

/-- Keyword arguments assembled for a worker `reset` command
(async_vector_env.py lines 232-236): an optional seed entry and whether an
`options` entry is present (its content is never inspected by this subsystem). -/
structure ResetKwargs where
  seed : Option Int
  hasOptions : Bool
deriving DecidableEq, Repr

/-- Commands an orchestrator sends through a worker pipe
(the `(command, data)` messages of async_vector_env.py). -/
inductive WorkerCmd (Act V : Type)
  | resetC (kwargs : ResetKwargs)
  | stepC (action : Act) (toReset : Bool)
  | closeC
  | callC (name : String) (args : List V)
  | setattrC (name : String) (value : V)
deriving DecidableEq, Repr

/-- Reply payloads a worker sends back (first component of the `(result, success)`
pairs built by `default_async_worker`): a `reset` reply is an (observation, info)
pair, a `step` reply is a 5-tuple, `_call` returns an arbitrary value, `close` and
`_setattr` acknowledge with `None`, and a failed worker also sends `None`
(line 725). An observation is `none` on the shared-memory path. -/
inductive Payload (Obs Info V : Type)
  | resetP (obs : Option Obs) (info : Info)
  | stepP (obs : Option Obs) (reward : Int) (terminated truncated : Bool) (info : Info)
  | callP (v : V)
  | noneP
deriving DecidableEq, Repr

/-- One duplex channel between the orchestrator and a worker.
`sent` holds commands the orchestrator sent and the worker has not consumed;
`inbox` holds replies pending `recv` by the orchestrator; `ready` abstracts
whether `pipe.poll(delta)` succeeds within the polling deadline. -/
structure Pipe (Obs Act Info V : Type) where
  sent : List (WorkerCmd Act V)
  inbox : List (Payload Obs Info V × Bool)
  closed : Bool
  ready : Bool
deriving DecidableEq, Repr

/-- The orchestrator state of `AsyncVectorEnv`. `parent_pipes` entries are
`none` where the Python list holds `None` (after `raise_if_errors` cleared a
slot); `error_queue` is the FIFO of `(index, exctype, value)` triples;
`observations` is the batched observation container (the non-shared-memory
path stores the last concatenated list of per-env observations);
`processes` records which worker processes are alive.
The `closed` flag is the attribute `VectorEnv.closed`. Modelled from the spec:
the experimental base class `gymnasium/experimental/vector/vector_env.py` is
not part of the provided sources; per the spec's lifecycle ("constructed ...
usable ... `close()` releases all owned resources") and the sibling base class
`gymnasium/vector/vector_env.py` line 59 it defaults to `False` at
construction. No method of `AsyncVectorEnv` itself assigns it. -/
structure AEnv (Obs Act Info V : Type) where
  num_envs : Nat
  shared_memory : Bool
  copy : Bool
  parent_pipes : List (Option (Pipe Obs Act Info V))
  error_queue : List (Nat × String × String)
  state : AsyncState
  to_reset_envs : List Bool
  observations : List (Option Obs)
  processes : List Bool
  closed : Bool
deriving DecidableEq, Repr

variable {Obs Act Info V : Type}

/-- Method `_assert_is_running` (lines 603-607). -/
def assert_is_running (s : AEnv Obs Act Info V) : Except PyErr Unit :=
  if s.closed then
    .error (.ClosedEnvironmentError
      "Trying to operate on `AsyncVectorEnv`, after a call to `close()`.")
  else .ok ()

/-- Sending one message through a `Connection`: raises `OSError` if the handle
is closed, otherwise appends to the stream. -/
def pipeSend (p : Pipe Obs Act Info V) (m : WorkerCmd Act V) :
    Except PyErr (Pipe Obs Act Info V) :=
  if p.closed then .error .osErrorClosedHandle
  else .ok { p with sent := p.sent ++ [m] }

/-- Receiving one message from a `Connection`: raises `OSError` if the handle is
closed, blocks forever if nothing is available, otherwise pops the oldest reply. -/
def pipeRecv (p : Pipe Obs Act Info V) :
    Except PyErr ((Payload Obs Info V × Bool) × Pipe Obs Act Info V) :=
  if p.closed then .error .osErrorClosedHandle
  else
    match p.inbox with
    | [] => .error .wouldBlock
    | r :: rest => .ok (r, { p with inbox := rest })

/-- Loop `for pipe, x in zip(self.parent_pipes, xs): pipe.send(m x)` — `zip`
truncates at the shorter list; sends that happened before a failing send are
kept; `None.send` raises `AttributeError`. -/
def sendZip : List (Option (Pipe Obs Act Info V)) → List (WorkerCmd Act V) →
    List (Option (Pipe Obs Act Info V)) × Except PyErr Unit
  | ps, [] => (ps, .ok ())
  | [], _ :: _ => ([], .ok ())
  | none :: ps, _ :: _ => (none :: ps, .error .attributeErrorNone)
  | some p :: ps, m :: ms =>
    match pipeSend p m with
    | .error e => (some p :: ps, .error e)
    | .ok p' =>
      let (ps', r) := sendZip ps ms
      (some p' :: ps', r)

/-- Comprehension `[pipe.recv() for pipe in self.parent_pipes]`: receives in
index order; replies received before a failing `recv` stay consumed. -/
def recvAll : List (Option (Pipe Obs Act Info V)) →
    List (Option (Pipe Obs Act Info V)) × Except PyErr (List (Payload Obs Info V × Bool))
  | [] => ([], .ok [])
  | none :: ps => (none :: ps, .error .attributeErrorNone)
  | some p :: ps =>
    match pipeRecv p with
    | .error e => (some p :: ps, .error e)
    | .ok (r, p') =>
      let (ps', res) := recvAll ps
      (some p' :: ps', res.map (r :: ·))

/-- Method `poll_env_processes` (lines 563-579). With no timeout it returns
`True` immediately; otherwise every pipe must be non-`None`, open, and become
ready within the deadline (per-pipe `poll(delta)` is the `ready` field). -/
def poll_env_processes (s : AEnv Obs Act Info V) (timeout : Option Nat) :
    Except PyErr Bool :=
  match assert_is_running s with
  | .error e => .error e
  | .ok _ =>
    match timeout with
    | none => .ok true
    | some _ =>
      .ok (s.parent_pipes.all fun op =>
        match op with
        | none => false
        | some p => !p.closed && p.ready)

/-- Seed argument accepted by `reset_async`: `None`, a single int, or a list. -/
inductive SeedArg
  | noneS
  | intS (n : Int)
  | listS (l : List (Option Int))
deriving DecidableEq, Repr

/-- Seed normalization in `reset_async` (lines 219-222): `None` becomes a list
of `None`s, an int `n` becomes `[n, n+1, ...]`. -/
def normalize_seed (num_envs : Nat) : SeedArg → List (Option Int)
  | .noneS => List.replicate num_envs none
  | .intS n => (List.range num_envs).map fun i => some (n + i)
  | .listS l => l

/-- Method `reset_async` (lines 197-239). Order of effects, per the source:
`_assert_is_running`; clear `_to_reset_envs`; normalize the seed and `assert`
its length; only then the pending-state check; then the sends; finally the
transition to `WAITING_RESET`. -/
def reset_async (s : AEnv Obs Act Info V) (seed : SeedArg) (hasOptions : Bool) :
    AEnv Obs Act Info V × Except PyErr Unit :=
  match assert_is_running s with
  | .error e => (s, .error e)
  | .ok _ =>
    let s := { s with to_reset_envs := List.replicate s.num_envs false }
    let seeds := normalize_seed s.num_envs seed
    if seeds.length ≠ s.num_envs then (s, .error .assertionError)
    else if s.state ≠ AsyncState.DEFAULT then
      (s, .error (.AlreadyPendingCallError
        ("Calling `reset_async` while waiting for a pending call to `" ++
          s.state.value ++ "` to complete")
        s.state.value))
    else
      let msgs := seeds.map fun sd => WorkerCmd.resetC ⟨sd, hasOptions⟩
      let (ps, r) := sendZip s.parent_pipes msgs
      let s := { s with parent_pipes := ps }
      match r with
      | .error e => (s, .error e)
      | .ok _ => ({ s with state := AsyncState.WAITING_RESET }, .ok ())

/-- Method `step_async` (lines 306-331). `iterate(self.action_space, actions)`
on the batched action is modeled as the list of per-env actions itself; each
pipe is sent `("step", (action, to_reset))` zipping pipes, actions and the
pending-reset flags. -/
def step_async (s : AEnv Obs Act Info V) (actions : List Act) :
    AEnv Obs Act Info V × Except PyErr Unit :=
  match assert_is_running s with
  | .error e => (s, .error e)
  | .ok _ =>
    if s.state ≠ AsyncState.DEFAULT then
      (s, .error (.AlreadyPendingCallError
        ("Calling `step_async` while waiting for a pending call to `" ++
          s.state.value ++ "` to complete.")
        s.state.value))
    else
      let msgs := (actions.zip s.to_reset_envs).map fun at_ =>
        WorkerCmd.stepC at_.1 at_.2
      let (ps, r) := sendZip s.parent_pipes msgs
      let s := { s with parent_pipes := ps }
      match r with
      | .error e => (s, .error e)
      | .ok _ => ({ s with state := AsyncState.WAITING_STEP }, .ok ())

/-- Drain loop of `raise_if_errors` (lines 616-628), recursing on the number of
remaining failures. Each iteration pops one `(index, exctype, value)` triple
from the error queue, logs it, closes the pipe at `index` and clears the slot
(`self.parent_pipes[index].close(); self.parent_pipes[index] = None`); the last
iteration additionally logs and re-raises `exctype(value)`. -/
def drainErrors : Nat → AEnv Obs Act Info V → List LogMsg →
    AEnv Obs Act Info V × List LogMsg × Except PyErr Unit
  | 0, s, logs => (s, logs, .ok ())
  | k + 1, s, logs =>
    match s.error_queue with
    | [] => (s, logs, .error .wouldBlock)
    | (index, exctype, excvalue) :: rest =>
      let s := { s with error_queue := rest }
      let logs := logs ++ [.errorFromWorker index exctype excvalue,
        .shuttingDownWorker index]
      match s.parent_pipes[index]? with
      | Option.none => (s, logs, .error .indexError)
      | some Option.none => (s, logs, .error .attributeErrorNone)
      | some (some _) =>
        let s := { s with parent_pipes := s.parent_pipes.set index none }
        if k = 0 then
          (s, logs ++ [.raisingLastException],
            .error (.workerError exctype excvalue))
        else drainErrors k s logs

/-- Method `raise_if_errors` (lines 609-628). Nothing happens when every
acknowledgement was successful; otherwise `num_errors = num_envs - sum(successes)`
entries are drained (the `assert 0 < num_errors` is modeled as `assertionError`
when it fails). -/
def raise_if_errors (s : AEnv Obs Act Info V) (successes : List Bool) :
    AEnv Obs Act Info V × List LogMsg × Except PyErr Unit :=
  if successes.all id then (s, [], .ok ())
  else
    let num_errors := s.num_envs - successes.count true
    if num_errors = 0 then (s, [], .error .assertionError)
    else drainErrors num_errors s []

/-- One iteration's data in the `step_wait` receive loop (lines 366-376). -/
structure StepRecv (Obs Info : Type) where
  obs : Option Obs
  reward : Int
  terminated : Bool
  truncated : Bool
  info : Info
  success : Bool
deriving DecidableEq, Repr

/-- Receive loop of `step_wait` (lines 366-376): receives from every pipe in
index order and unpacks each `result` as the 5-tuple
`obs, reward, terminated, truncated, info`. Unpacking a failed worker's `None`
payload raises a `TypeError` (so a default worker's failure never reaches
`raise_if_errors` in `step_wait`); unpacking a reply of a different tuple shape
raises a `ValueError` or `TypeError`. -/
def stepRecvAll : List (Option (Pipe Obs Act Info V)) →
    List (Option (Pipe Obs Act Info V)) × Except PyErr (List (StepRecv Obs Info))
  | [] => ([], .ok [])
  | none :: ps => (none :: ps, .error .attributeErrorNone)
  | some p :: ps =>
    match pipeRecv p with
    | .error e => (some p :: ps, .error e)
    | .ok ((payload, success), p') =>
      match payload with
      | .stepP obs reward terminated truncated info =>
        let (ps', res) := stepRecvAll ps
        (some p' :: ps',
          res.map (⟨obs, reward, terminated, truncated, info, success⟩ :: ·))
      | .noneP => (some p' :: ps,
          .error (.typeError "cannot unpack non-iterable NoneType object"))
      | .resetP _ _ => (some p' :: ps,
          .error (.valueError "not enough values to unpack"))
      | .callP _ => (some p' :: ps,
          .error (.typeError "cannot unpack non-iterable object"))

/-- Method `step_wait` (lines 333-402). Order of effects, per the source:
running/state checks; `poll_env_processes` (on timeout: state back to
`DEFAULT`, `TimeoutError`, nothing received); the receive loop;
`raise_if_errors` (which happens before `self._state = AsyncState.DEFAULT`, so
a worker-failure re-raise leaves the state at `WAITING_STEP`); then
`observations` (non-shared-memory path concatenates the received observations),
arrays, and the recomputation
`self._to_reset_envs = np.logical_or(terminations, truncations)`.
The info aggregation by `add_dict_info` (defined on the experimental base
class, which is not among the provided sources) is returned as the index-ordered
list of per-environment infos. -/
def step_wait (s : AEnv Obs Act Info V) (timeout : Option Nat) :
    AEnv Obs Act Info V × List LogMsg ×
      Except PyErr (List (Option Obs) × List Int × List Bool × List Bool × List Info) :=
  match assert_is_running s with
  | .error e => (s, [], .error e)
  | .ok _ =>
    if s.state ≠ AsyncState.WAITING_STEP then
      (s, [], .error (.NoAsyncCallError
        "Calling `step_wait` without any prior call to `step_async`."
        AsyncState.WAITING_STEP.value))
    else
      match poll_env_processes s timeout with
      | .error e => (s, [], .error e)
      | .ok ready =>
        if !ready then
          ({ s with state := AsyncState.DEFAULT }, [],
            .error (.TimeoutError
              ("The call to `step_wait` has timed out after " ++
                toString (timeout.getD 0) ++ " second(s).")))
        else
          let (ps, res) := stepRecvAll s.parent_pipes
          let s := { s with parent_pipes := ps }
          match res with
          | .error e => (s, [], .error e)
          | .ok rs =>
            let successes := rs.map (·.success)
            match raise_if_errors s successes with
            | (s, logs, .error e) => (s, logs, .error e)
            | (s, logs, .ok _) =>
              let s := { s with state := AsyncState.DEFAULT }
              let obs_list := rs.map (·.obs)
              let s := if !s.shared_memory then { s with observations := obs_list }
                else s
              let rewards := rs.map (·.reward)
              let terminations := rs.map (·.terminated)
              let truncations := rs.map (·.truncated)
              let s := { s with
                to_reset_envs := List.zipWith (· || ·) terminations truncations }
              (s, logs, .ok (s.observations, rewards, terminations, truncations,
                rs.map (·.info)))

/-- Method `reset_wait` (lines 241-288). After the receive loop and
`raise_if_errors`, the state returns to `DEFAULT`, every reply is unpacked as
the pair `(observation, info)`, and the non-shared-memory path concatenates the
observations. Per-environment infos are returned as an index-ordered list (see
`step_wait` about `add_dict_info`). -/
def reset_wait (s : AEnv Obs Act Info V) (timeout : Option Nat) :
    AEnv Obs Act Info V × List LogMsg ×
      Except PyErr (List (Option Obs) × List Info) :=
  match assert_is_running s with
  | .error e => (s, [], .error e)
  | .ok _ =>
    if s.state ≠ AsyncState.WAITING_RESET then
      (s, [], .error (.NoAsyncCallError
        "Calling `reset_wait` without any prior call to `reset_async`."
        AsyncState.WAITING_RESET.value))
    else
      match poll_env_processes s timeout with
      | .error e => (s, [], .error e)
      | .ok ready =>
        if !ready then
          ({ s with state := AsyncState.DEFAULT }, [],
            .error (.TimeoutError
              ("The call to `reset_wait` has timed out after " ++
                toString (timeout.getD 0) ++ " second(s).")))
        else
          let (ps, res) := recvAll s.parent_pipes
          let s := { s with parent_pipes := ps }
          match res with
          | .error e => (s, [], .error e)
          | .ok replies =>
            let successes := replies.map (·.2)
            match raise_if_errors s successes with
            | (s, logs, .error e) => (s, logs, .error e)
            | (s, logs, .ok _) =>
              let s := { s with state := AsyncState.DEFAULT }
              let unpack : List (Payload Obs Info V × Bool) →
                  Except PyErr (List (Option Obs × Info)) := fun l =>
                l.foldr (fun r acc =>
                  match r.1 with
                  | .resetP obs info => acc.map ((obs, info) :: ·)
                  | .noneP => .error
                      (.typeError "cannot unpack non-iterable NoneType object")
                  | .stepP _ _ _ _ _ => .error
                      (.valueError "too many values to unpack")
                  | .callP _ => .error
                      (.typeError "cannot unpack non-iterable object"))
                  (.ok [])
              match unpack replies with
              | .error e => (s, logs, .error e)
              | .ok pairs =>
                let s := if !s.shared_memory then
                    { s with observations := pairs.map (·.1) }
                  else s
                (s, logs, .ok (s.observations, pairs.map (·.2)))

/-- Method `call_async` (lines 418-440). -/
def call_async (s : AEnv Obs Act Info V) (name : String) (args : List V) :
    AEnv Obs Act Info V × Except PyErr Unit :=
  match assert_is_running s with
  | .error e => (s, .error e)
  | .ok _ =>
    if s.state ≠ AsyncState.DEFAULT then
      (s, .error (.AlreadyPendingCallError
        ("Calling `call_async` while waiting for a pending call to `" ++
          s.state.value ++ "` to complete.")
        s.state.value))
    else
      let msgs := List.replicate s.parent_pipes.length
        (WorkerCmd.callC name args : WorkerCmd Act V)
      let (ps, r) := sendZip s.parent_pipes msgs
      let s := { s with parent_pipes := ps }
      match r with
      | .error e => (s, .error e)
      | .ok _ => ({ s with state := AsyncState.WAITING_CALL }, .ok ())

/-- Method `call_wait` (lines 442-473). -/
def call_wait (s : AEnv Obs Act Info V) (timeout : Option Nat) :
    AEnv Obs Act Info V × List LogMsg × Except PyErr (List (Payload Obs Info V)) :=
  match assert_is_running s with
  | .error e => (s, [], .error e)
  | .ok _ =>
    if s.state ≠ AsyncState.WAITING_CALL then
      (s, [], .error (.NoAsyncCallError
        "Calling `call_wait` without any prior call to `call_async`."
        AsyncState.WAITING_CALL.value))
    else
      match poll_env_processes s timeout with
      | .error e => (s, [], .error e)
      | .ok ready =>
        if !ready then
          ({ s with state := AsyncState.DEFAULT }, [],
            .error (.TimeoutError
              ("The call to `call_wait` has timed out after " ++
                toString (timeout.getD 0) ++ " second(s).")))
        else
          let (ps, res) := recvAll s.parent_pipes
          let s := { s with parent_pipes := ps }
          match res with
          | .error e => (s, [], .error e)
          | .ok replies =>
            let successes := replies.map (·.2)
            match raise_if_errors s successes with
            | (s, logs, .error e) => (s, logs, .error e)
            | (s, logs, .ok _) =>
              ({ s with state := AsyncState.DEFAULT }, logs,
                .ok (replies.map (·.1)))

/-- Method `call` (lines 404-416): `call_async` followed by `call_wait`. -/
def call (s : AEnv Obs Act Info V) (name : String) (args : List V) :
    AEnv Obs Act Info V × List LogMsg × Except PyErr (List (Payload Obs Info V)) :=
  match call_async s name args with
  | (s, .error e) => (s, [], .error e)
  | (s, .ok _) => call_wait s none

/-- Method `get_attr` (lines 475-484): `return self.call(name)`. -/
def get_attr (s : AEnv Obs Act Info V) (name : String) :
    AEnv Obs Act Info V × List LogMsg × Except PyErr (List (Payload Obs Info V)) :=
  call s name []

/-- Method `set_attr` (lines 486-520). A non-list value is broadcast to all
environments; a wrong-length list raises `ValueError`; a pending call raises
`AlreadyPendingCallError`; then one `_setattr` message per pipe, one
acknowledgement per pipe, and `raise_if_errors`. -/
def set_attr (s : AEnv Obs Act Info V) (name : String) (values : V ⊕ List V) :
    AEnv Obs Act Info V × List LogMsg × Except PyErr Unit :=
  match assert_is_running s with
  | .error e => (s, [], .error e)
  | .ok _ =>
    let vals := match values with
      | .inl v => List.replicate s.num_envs v
      | .inr l => l
    if vals.length ≠ s.num_envs then
      (s, [], .error (.valueError
        "Values must be a list or tuple with length equal to the number of environments."))
    else if s.state ≠ AsyncState.DEFAULT then
      (s, [], .error (.AlreadyPendingCallError
        ("Calling `set_attr` while waiting for a pending call to `" ++
          s.state.value ++ "` to complete.")
        s.state.value))
    else
      let msgs := vals.map fun v => WorkerCmd.setattrC name v
      let (ps, r) := sendZip s.parent_pipes msgs
      let s := { s with parent_pipes := ps }
      match r with
      | .error e => (s, [], .error e)
      | .ok _ =>
        let (ps, res) := recvAll s.parent_pipes
        let s := { s with parent_pipes := ps }
        match res with
        | .error e => (s, [], .error e)
        | .ok replies => raise_if_errors s (replies.map (·.2))

/-- Marking one `Connection` closed (`pipe.close()`). -/
def closePipe (p : Pipe Obs Act Info V) : Pipe Obs Act Info V :=
  { p with closed := true }

/-- Method `close` (lines 522-561). With `terminate` the timeout is forced to
`0`. A pending call is first completed by the matching wait (a `TimeoutError`
there switches to terminating; any other exception propagates, as the
`try` block only catches `mp.TimeoutError`). Terminating kills every live
process; a graceful close sends a `close` command to every open pipe and
receives each acknowledgement. Finally every remaining pipe is closed and every
process joined. Note: no branch of this method assigns the `closed` attribute. -/
def close (s : AEnv Obs Act Info V) (timeout : Option Nat) (terminate : Bool) :
    AEnv Obs Act Info V × List LogMsg × Except PyErr Unit :=
  let timeout := if terminate then some 0 else timeout
  let waitResult : AEnv Obs Act Info V × List LogMsg × Except PyErr Unit × Bool :=
    if s.state = AsyncState.DEFAULT then (s, [], .ok (), terminate)
    else
      let warn := [LogMsg.closeWhilePending s.state.value]
      let run : AEnv Obs Act Info V × List LogMsg × Except PyErr Unit :=
        match s.state with
        | .WAITING_RESET =>
          match reset_wait s timeout with
          | (s, logs, .error e) => (s, logs, .error e)
          | (s, logs, .ok _) => (s, logs, .ok ())
        | .WAITING_STEP =>
          match step_wait s timeout with
          | (s, logs, .error e) => (s, logs, .error e)
          | (s, logs, .ok _) => (s, logs, .ok ())
        | .WAITING_CALL =>
          match call_wait s timeout with
          | (s, logs, .error e) => (s, logs, .error e)
          | (s, logs, .ok _) => (s, logs, .ok ())
        | .DEFAULT => (s, [], .ok ())
      match run with
      | (s, logs, .error (.TimeoutError _)) => (s, warn ++ logs, .ok (), true)
      | (s, logs, .error e) => (s, warn ++ logs, .error e, terminate)
      | (s, logs, .ok _) => (s, warn ++ logs, .ok (), terminate)
  match waitResult with
  | (s, logs, .error e, _) => (s, logs, .error e)
  | (s, logs, .ok _, terminate) =>
    if terminate then
      let s := { s with processes := s.processes.map fun _ => false }
      let s := { s with parent_pipes := s.parent_pipes.map (Option.map closePipe) }
      (s, logs, .ok ())
    else
      let sendClose := s.parent_pipes.map (Option.map fun p =>
        if p.closed then p else { p with sent := p.sent ++ [WorkerCmd.closeC] })
      let s := { s with parent_pipes := sendClose }
      let recvClose : Except PyErr (List (Option (Pipe Obs Act Info V))) :=
        s.parent_pipes.foldr (fun op acc =>
          match op with
          | none => acc.map (none :: ·)
          | some p =>
            if p.closed then acc.map (some p :: ·)
            else
              match pipeRecv p with
              | .error e => .error e
              | .ok (_, p') => acc.map (some p' :: ·)) (.ok [])
      match recvClose with
      | .error e => (s, logs, .error e)
      | .ok ps =>
        let s := { s with parent_pipes := ps.map (Option.map closePipe) }
        let s := { s with processes := s.processes.map fun _ => false }
        (s, logs, .ok ())

/-- A sub-environment as consumed by a worker (external collaborator of spec §6):
`reset(**kwargs)` and `step(action)`, both deterministic transformers of the
environment's internal state `σ`. -/
structure SubEnv (σ Obs Act Info : Type) where
  reset : ResetKwargs → σ → σ × Obs × Info
  step : Act → σ → σ × Obs × Int × Bool × Bool × Info

variable {σ : Type}

/-- The `"step"` command branch of `default_async_worker` (lines 661-682) with
`shared_memory = False`: a set reset flag makes the worker call `env.reset()`
(no arguments) instead of stepping and synthesize
`reward = 0.0, terminated = False, truncated = False`. -/
def workerStepCommand (env : SubEnv σ Obs Act Info) (st : σ) (action : Act)
    (to_reset_env : Bool) : σ × Option Obs × Int × Bool × Bool × Info :=
  if to_reset_env then
    let r := env.reset ⟨none, false⟩ st
    (r.1, some r.2.1, 0, false, false, r.2.2)
  else
    let r := env.step action st
    (r.1, some r.2.1, r.2.2.1, r.2.2.2.1, r.2.2.2.2.1, r.2.2.2.2.2)

/-- The `"reset"` command branch of `default_async_worker` (lines 654-659) with
`shared_memory = False`. -/
def workerResetCommand (env : SubEnv σ Obs Act Info) (st : σ) (kwargs : ResetKwargs) :
    σ × Option Obs × Info :=
  let r := env.reset kwargs st
  (r.1, some r.2.1, r.2.2)

/-- One iteration of the worker loop (lines 651-718) on the oldest pending
command, restricted to the `reset` and `step` commands (`shared_memory = False`);
the `(result, True)` reply is appended to the pipe and the pipe becomes ready
for polling. Commands not sent by the round composed below leave the pipe
unchanged. -/
def workerProcessOne (env : SubEnv σ Obs Act Info) (st : σ) (p : Pipe Obs Act Info V) :
    σ × Pipe Obs Act Info V :=
  match p.sent with
  | WorkerCmd.stepC a tr :: rest =>
    let r := workerStepCommand env st a tr
    let reply := Payload.stepP r.2.1 r.2.2.1 r.2.2.2.1 r.2.2.2.2.1 r.2.2.2.2.2
    (r.1, { p with
            sent := rest
            inbox := p.inbox ++ [(reply, true)]
            ready := true })
  | WorkerCmd.resetC kw :: rest =>
    let r := workerResetCommand env st kw
    (r.1, { p with
            sent := rest
            inbox := p.inbox ++ [(Payload.resetP r.2.1 r.2.2, true)]
            ready := true })
  | _ => (st, p)

/-- Every worker runs concurrently and independently; in the deterministic model
each processes its own oldest pending command once (a `None` pipe slot has no
worker behind it any more). -/
def workersRun : List (SubEnv σ Obs Act Info) → List σ →
    List (Option (Pipe Obs Act Info V)) → List σ × List (Option (Pipe Obs Act Info V))
  | e :: es, st :: sts, some p :: ps =>
    let r := workerProcessOne (V := V) e st p
    let rec_ := workersRun es sts ps
    (r.1 :: rec_.1, some r.2 :: rec_.2)
  | _ :: es, st :: sts, none :: ps =>
    let rec_ := workersRun es sts ps
    (st :: rec_.1, none :: rec_.2)
  | _, sts, ps => (sts, ps)

/-- The state a sub-environment is left in by one worker step command. -/
def stepNewState (env : SubEnv σ Obs Act Info) (st : σ) (action : Act)
    (toReset : Bool) : σ :=
  (workerStepCommand env st action toReset).1

/-- The receive-loop record the orchestrator obtains for one worker step
command answered with a success flag. -/
def stepRecvOf (env : SubEnv σ Obs Act Info) (st : σ) (action : Act)
    (toReset : Bool) : StepRecv Obs Info :=
  let r := workerStepCommand env st action toReset
  ⟨r.2.1, r.2.2.1, r.2.2.2.1, r.2.2.2.2.1, r.2.2.2.2.2, true⟩

/-- One complete step round against live workers: `step_async`, every worker
processing its command, then `step_wait` with no timeout. -/
def stepRound (envs : List (SubEnv σ Obs Act Info)) (sts : List σ)
    (s : AEnv Obs Act Info V) (actions : List Act) :
    List σ × AEnv Obs Act Info V × List LogMsg ×
      Except PyErr (List (Option Obs) × List Int × List Bool × List Bool × List Info) :=
  match step_async s actions with
  | (s, .error e) => (sts, s, [], .error e)
  | (s, .ok _) =>
    let w := workersRun envs sts s.parent_pipes
    let s := { s with parent_pipes := w.2 }
    let r := step_wait s none
    (w.1, r.1, r.2.1, r.2.2)

end GymVec

namespace GymVecWrap

/-!
Embedding of the wrapper layer of `gymnasium/vector/vector_env.py`
(lines 218-364): `VectorWrapper.__getattr__` and the three specialized
wrapper variants. Values flowing through the dynamically-typed wrapper code
are modeled by the closed universe `PyV`.
-/

/-- Dynamic (Python-style) value universe for data flowing through the wrapper
layer: integers (standing for any leaf value/array) and tuples. -/
inductive PyV
  | int (n : Int)
  | tup2 (a b : PyV)
deriving DecidableEq, Repr

/-- An attribute of the inner engine: a plain value or a callable. -/
inductive PyAttr
  | plain (v : PyV)
  | func (f : PyV → PyV)

/-- The inner vectorized engine a wrapper holds (`self.env`): `reset` (seed
forwarded, `options` elided as it is never inspected), `step`, and the
attribute table consulted by `getattr(self.env, name)`. -/
structure InnerVE where
  resetR : Option Int → PyV × PyV
  stepR : PyV → PyV × PyV × PyV × PyV × PyV
  attrs : String → Option PyAttr

/-- Method `VectorWrapper.__getattr__` (vector_env.py lines 260-263), which
Python invokes only for names not defined on the wrapper itself: an
underscore-prefixed name raises `AttributeError` at once, without touching the
inner engine; any other name is resolved by `getattr(self.env, name)`, which
raises `AttributeError` when the inner engine lacks the attribute. -/
def VectorWrapper_getattr (envAttrs : String → Option PyAttr) (name : String) :
    Except GymVec.PyErr PyAttr :=
  if GymVec.startsWithUnderscore name then
    .error (.attributeError
      ("attempted to get missing private attribute \x27" ++ name ++ "\x27"))
  else
    match envAttrs name with
    | some a => .ok a
    | none => .error (.attributeError name)

/-- Method `VectorObservationWrapper.reset` (vector_env.py lines 281-288). The
source binds the entire value returned by `self.env.reset` — the
`(observation, info)` pair — to `observation` and returns
`self.observation(observation)` applied to that pair. -/
def VectorObservationWrapper_reset (env : InnerVE) (observation : PyV → PyV)
    (seed : Option Int) : PyV :=
  let r := env.resetR seed
  observation (PyV.tup2 r.1 r.2)

/-- Method `VectorObservationWrapper.step` (vector_env.py lines 290-306). -/
def VectorObservationWrapper_step (env : InnerVE) (observation : PyV → PyV)
    (actions : PyV) : PyV × PyV × PyV × PyV × PyV :=
  let r := env.stepR actions
  (observation r.1, r.2.1, r.2.2.1, r.2.2.2.1, r.2.2.2.2)

/-- Method `VectorActionWrapper.step` (vector_env.py lines 325-330):
`return self.env.step(self.action(actions))`. The class defines its hook under
the name `actions` (line 332), not `action`, so `self.action` is resolved
through `VectorWrapper.__getattr__`, i.e. against the inner engine's
attributes; the hook itself is never consulted (hence the unused
`_actions_hook` parameter). -/
def VectorActionWrapper_step (env : InnerVE) (_actions_hook : PyV → PyV)
    (actions : PyV) : Except GymVec.PyErr (PyV × PyV × PyV × PyV × PyV) :=
  match VectorWrapper_getattr env.attrs "action" with
  | .error e => .error e
  | .ok (.func f) => .ok (env.stepR (f actions))
  | .ok (.plain _) => .error (.typeError "object is not callable")

/-- Method `VectorRewardWrapper.step` (vector_env.py lines 347-353). -/
def VectorRewardWrapper_step (env : InnerVE) (reward : PyV → PyV) (actions : PyV) :
    PyV × PyV × PyV × PyV × PyV :=
  let r := env.stepR actions
  (r.1, reward r.2.1, r.2.2.1, r.2.2.2.1, r.2.2.2.2)

end GymVecWrap

namespace GymVecInfo

/-!
Embedding of the info aggregation (`VectorEnv._add_info`,
`gymnasium/vector/vector_env.py` lines 144-194) and of the adapter
`DictInfoToList._convert_info_to_list`
(`gymnasium/wrappers/vector/dict_info_to_list.py` lines 89-145). The Python
dicts are insertion-ordered association lists.
-/

variable {V : Type} {α : Type}

/-- A value stored in the vectorized `infos` dict: either a length-`num_envs`
value array (`_init_info_arrays` fills it with the dtype's zero, or `None` for
object dtype — both modeled by the designated default value `v0`) or a boolean
mask array. -/
inductive InfoCell (V : Type)
  | varr (xs : List V)
  | marr (bs : List Bool)
deriving DecidableEq, Repr

/-- Python-dict lookup on an insertion-ordered association list. -/
def dictGet : List (String × α) → String → Option α
  | [], _ => none
  | (k', v) :: rest, k => if k' = k then some v else dictGet rest k

/-- Python-dict assignment: an existing key is updated in place (keeping its
position), a new key is appended at the end. -/
def dictSet : List (String × α) → String → α → List (String × α)
  | [], k, v => [(k, v)]
  | (k', v') :: rest, k, v =>
    if k' = k then (k, v) :: rest else (k', v') :: dictSet rest k v

/-- Method `VectorEnv._init_info_arrays` (vector_env.py lines 171-194). -/
def init_info_arrays (num_envs : Nat) (v0 : V) : List V × List Bool :=
  (List.replicate num_envs v0, List.replicate num_envs false)

/-- Method `VectorEnv._add_info` (vector_env.py lines 144-169), iterating the
single environment's `info` dict in key order. A key `k` seen for the first
time gets fresh arrays from `_init_info_arrays`; otherwise the arrays are
`infos[k]` and `infos["_" + k]` (a missing mask is a `KeyError`; arrays of the
wrong dynamic kind can only arise from underscore-prefixed user keys, which
the info contract forbids, and are dynamic errors). Position `env_num` of the
value array is assigned the info value, the mask position is set `True`, and
both entries are stored back under `k` and `"_" + k`. -/
def add_info (num_envs : Nat) (v0 : V) :
    List (String × InfoCell V) → List (String × V) → Nat →
    Except GymVec.PyErr (List (String × InfoCell V))
  | infos, [], _ => .ok infos
  | infos, (k, v) :: rest, env_num =>
    let arrs : Except GymVec.PyErr (List V × List Bool) :=
      match dictGet infos k with
      | none => .ok (init_info_arrays num_envs v0)
      | some (.varr xs) =>
        match dictGet infos ("_" ++ k) with
        | some (.marr bs) => .ok (xs, bs)
        | some (.varr _) => .error (.typeError "mask entry is not a boolean array")
        | none => .error (.keyError ("_" ++ k))
      | some (.marr _) => .error (.typeError "value entry is not a value array")
    match arrs with
    | .error e => .error e
    | .ok (xs, bs) =>
      if env_num < xs.length ∧ env_num < bs.length then
        add_info num_envs v0
          (dictSet (dictSet infos k (.varr (xs.set env_num v)))
            ("_" ++ k) (.marr (bs.set env_num true)))
          rest env_num
      else .error .indexError

/-- Index-by-index aggregation of one round's per-environment info dicts, as
the engines do it: starting from `infos = {}`, apply `_add_info` with
environment index `i` for each `i` in order. -/
def aggregateAux (num_envs : Nat) (v0 : V) :
    Nat → List (String × InfoCell V) → List (List (String × V)) →
    Except GymVec.PyErr (List (String × InfoCell V))
  | _, infos, [] => .ok infos
  | i, infos, d :: ds =>
    match add_info num_envs v0 infos d i with
    | .error e => .error e
    | .ok infos' => aggregateAux num_envs v0 (i + 1) infos' ds

/-- Aggregation of a full round of per-environment infos. -/
def aggregate_infos (num_envs : Nat) (v0 : V) (dicts : List (List (String × V))) :
    Except GymVec.PyErr (List (String × InfoCell V)) :=
  aggregateAux num_envs v0 0 [] dicts

/-- Inner loop of `DictInfoToList._convert_info_to_list` (dict_info_to_list.py
lines 108-110): `for i, has_info in enumerate(infos["_" + k]): if has_info:
list_info[i][k] = infos[k][i]`; an index past the end of the value array or of
`list_info` is an `IndexError`. -/
def distributeKey (k : String) : List Bool → List V → List (List (String × V)) →
    Except GymVec.PyErr (List (List (String × V)))
  | [], _, li => .ok li
  | true :: bs, v :: xs, d :: ds =>
    (distributeKey k bs xs ds).map (dictSet d k v :: ·)
  | true :: _, _, _ => .error .indexError
  | false :: bs, xs, d :: ds => (distributeKey k bs xs.tail ds).map (d :: ·)
  | false :: bs, xs, [] => distributeKey k bs xs.tail []

/-- Method `DictInfoToList._process_episode_statistics` (dict_info_to_list.py
lines 114-145): pops the `"episode"` entry; when absent the per-environment
list passes through unchanged. A present entry would be the nested statistics
dict produced by `RecordEpisodeStatistics` — a value outside this model's
flat-array universe, whose processing (indexing an array with the string key
`"r"`) fails dynamically. -/
def process_episode_statistics (infos : List (String × InfoCell V))
    (list_info : List (List (String × V))) :
    Except GymVec.PyErr (List (String × InfoCell V) × List (List (String × V))) :=
  match dictGet infos "episode" with
  | none => .ok (infos, list_info)
  | some _ => .error (.typeError
      "only integers, slices and integer arrays are valid indices")

/-- Outer loop of `_convert_info_to_list` (lines 105-110) over the dict's
insertion-ordered entries: mask keys (underscore-prefixed) are skipped; every
other key distributes its masked values into the per-environment dicts. -/
def convertLoop (infos : List (String × InfoCell V)) :
    List (String × InfoCell V) → List (List (String × V)) →
    Except GymVec.PyErr (List (List (String × V)))
  | [], li => .ok li
  | (k, cell) :: rest, li =>
    if GymVec.startsWithUnderscore k then convertLoop infos rest li
    else
      match cell, dictGet infos ("_" ++ k) with
      | .varr xs, some (.marr bs) =>
        match distributeKey k bs xs li with
        | .error e => .error e
        | .ok li' => convertLoop infos rest li'
      | _, none => .error (.keyError ("_" ++ k))
      | _, _ => .error (.typeError "unexpected array kinds")

/-- Method `DictInfoToList._convert_info_to_list` (dict_info_to_list.py lines
89-111): fresh empty dicts, episode-statistics processing, then the key loop. -/
def convert_info_to_list (num_envs : Nat) (infos : List (String × InfoCell V)) :
    Except GymVec.PyErr (List (List (String × V))) :=
  let list_info := List.replicate num_envs ([] : List (String × V))
  match process_episode_statistics infos list_info with
  | .error e => .error e
  | .ok (infos, list_info) => convertLoop infos infos list_info

/-!
Verification helpers for the info round-trip (not part of the source): the
expected value/mask arrays after aggregating the first `m` per-environment
info dicts of a round, and the staged invariant the aggregation maintains.
-/

/-- The value environment `i` supplied for key `k`, if any. -/
def dsVal (ds : List (List (String × V))) (k : String) (i : Nat) : Option V :=
  dictGet (ds.getD i []) k

/-- Expected value array for key `k` after the first `m` environments:
the supplied value at supplying indices below `m`, the default elsewhere. -/
def specArr (ds : List (List (String × V))) (n : Nat) (v0 : V) (m : Nat)
    (k : String) : List V :=
  (List.range n).map fun i => if i < m then (dsVal ds k i).getD v0 else v0

/-- Expected mask array for key `k` after the first `m` environments: `true`
exactly at the supplying indices below `m`. -/
def specMask (ds : List (List (String × V))) (n m : Nat) (k : String) :
    List Bool :=
  (List.range n).map fun i => decide (i < m) && (dsVal ds k i).isSome

/-- Key `k` was supplied by one of the first `m` environments. -/
def supplied (ds : List (List (String × V))) (m : Nat) (k : String) : Prop :=
  ∃ j, j < m ∧ (dsVal ds k j).isSome = true

/-- The staged aggregation invariant: after the first `m` environments are
aggregated and the keys in `P` of environment `m`'s dict have additionally
been folded in, the dict has distinct keys, every entry is either a user key's
value array or a mask key's mask array at the right stage, and every supplied
key is present together with its mask. -/
def MIX (ds : List (List (String × V))) (n : Nat) (v0 : V) (m : Nat)
    (P : List String) (I : List (String × InfoCell V)) : Prop :=
  (I.map (fun e => e.1)).Nodup ∧
  (∀ k cell, dictGet I k = some cell →
    (GymVec.startsWithUnderscore k = false ∧
      cell = InfoCell.varr
        (if k ∈ P then specArr ds n v0 (m + 1) k else specArr ds n v0 m k) ∧
      (if k ∈ P then supplied ds (m + 1) k else supplied ds m k))
    ∨ (∃ k0, k = "_" ++ k0 ∧ GymVec.startsWithUnderscore k0 = false ∧
        cell = InfoCell.marr
          (if k0 ∈ P then specMask ds n (m + 1) k0 else specMask ds n m k0) ∧
        (if k0 ∈ P then supplied ds (m + 1) k0 else supplied ds m k0))) ∧
  (∀ k : String, (supplied ds m k ∨ k ∈ P) →
    (dictGet I k).isSome = true ∧ (dictGet I ("_" ++ k)).isSome = true)

end GymVecInfo

namespace GymFix

/-!
Concrete engine states, pipes and environments used to instantiate the
theorems below on closed inputs.
-/

open GymVec

/-- An open, idle worker pipe. -/
def pOpen : Pipe Int Int Int Int := ⟨[], [], false, true⟩

/-- A one-worker engine in the idle call state. -/
def sIdle : AEnv Int Int Int Int where
  num_envs := 1
  shared_memory := false
  copy := false
  parent_pipes := [some pOpen]
  error_queue := []
  state := .DEFAULT
  to_reset_envs := [false]
  observations := [none]
  processes := [true]
  closed := false

/-- A one-worker engine with a step round in flight. -/
def sPendingStep : AEnv Int Int Int Int :=
  { sIdle with state := .WAITING_STEP, to_reset_envs := [true] }

/-- A one-worker engine whose close acknowledgement is already buffered in the
pipe (the reply `(None, True)` a worker sends for the `close` command). -/
def sBeforeClose : AEnv Int Int Int Int :=
  { sIdle with parent_pipes := [some ⟨[], [(Payload.noneP, true)], false, true⟩] }

/-- A pending-step engine whose single worker pipe does not become ready
within the polling deadline. -/
def sNotReady : AEnv Int Int Int Int :=
  { sPendingStep with parent_pipes := [some ⟨[], [], false, false⟩] }

/-- A two-worker idle engine whose error queue reports a failure of worker 1. -/
def sTwoWithError : AEnv Int Int Int Int :=
  { sIdle with
    num_envs := 2
    parent_pipes := [some pOpen, some pOpen]
    error_queue := [(1, "RuntimeError", "bad")]
    to_reset_envs := [false, false]
    observations := [none, none]
    processes := [true, true] }

/-- A one-worker engine awaiting a step reply whose worker delivered a
shape-correct step payload flagged as a failure, with the matching entry on the
error queue. -/
def sFailingStep : AEnv Int Int Int Int :=
  { sIdle with
    state := .WAITING_STEP
    parent_pipes := [some ⟨[], [(Payload.stepP (some 5) 1 true false 7, false)], false, true⟩]
    error_queue := [(0, "ValueError", "boom")] }

/-- A one-worker idle engine whose single pending-reset flag is set. -/
def sAutoreset : AEnv Int Int Int Int :=
  { sIdle with to_reset_envs := [true] }

/-- A deterministic sub-environment over state `Nat`: reset returns observation
100, reward-free info 7, and state 0; step returns observation `st + a`,
reward 3, termination on odd states, info 8. -/
def envNat : SubEnv Nat Int Int Int where
  reset := fun _ _st => (0, 100, 7)
  step := fun a st => (st + a.toNat, Int.ofNat st + a, 3, decide (st % 2 = 1), false, 8)

/-- The inner engine used to evaluate the wrapper hooks. -/
def innerC7 : GymVecWrap.InnerVE where
  resetR := fun _ => (.int 1, .int 2)
  stepR := fun a => (a, .int 10, .int 0, .int 0, .int 20)
  attrs := fun _ => none

end GymFix

/-!
## Theorems
-/

/-- C10: `reset_async` is not atomic on error — on an engine whose call state is
not idle it raises the already-pending error naming the in-flight state, but
has by then already reset the pending-reset flags vector to all-`False`
(the clear happens before the call-state check); the call state itself is left
unchanged by the failed call. -/
theorem c10_reset_async_clears_flags_before_state_check
    {Obs Act Info V : Type} (s : GymVec.AEnv Obs Act Info V)
    (seed : GymVec.SeedArg) (hasOptions : Bool)
    (hclosed : s.closed = false)
    (hseed : (GymVec.normalize_seed s.num_envs seed).length = s.num_envs)
    (hstate : s.state ≠ GymVec.AsyncState.DEFAULT) :
    GymVec.reset_async s seed hasOptions =
      ({ s with to_reset_envs := List.replicate s.num_envs false },
        Except.error (GymVec.PyErr.AlreadyPendingCallError
          ("Calling `reset_async` while waiting for a pending call to `" ++
            s.state.value ++ "` to complete")
          s.state.value)) := by
  unfold GymVec.reset_async GymVec.assert_is_running
  simp [hclosed, hseed, hstate]

/-- Witness: the C10 theorem applied to a concrete engine with a step round in
flight. -/
theorem c10_witness :
    GymVec.reset_async GymFix.sPendingStep .noneS false =
      ({ GymFix.sPendingStep with
          to_reset_envs := List.replicate GymFix.sPendingStep.num_envs false },
        Except.error (GymVec.PyErr.AlreadyPendingCallError
          ("Calling `reset_async` while waiting for a pending call to `" ++
            GymFix.sPendingStep.state.value ++ "` to complete")
          GymFix.sPendingStep.state.value)) :=
  c10_reset_async_clears_flags_before_state_check GymFix.sPendingStep .noneS false
    rfl rfl (by decide)

/-- C9: for attribute names not defined on the wrapper itself,
`VectorWrapper.__getattr__` raises `AttributeError` for every
underscore-prefixed name without consulting the inner engine (the result is
identical for every inner attribute table), and for any other name returns the
inner engine's attribute of that name, propagating the `AttributeError` of
`getattr(self.env, name)` when the inner engine lacks it. -/
theorem c9_getattr_excludes_private_names (name : String) :
    (GymVec.startsWithUnderscore name = true →
      ∀ envAttrs : String → Option GymVecWrap.PyAttr,
        GymVecWrap.VectorWrapper_getattr envAttrs name =
          Except.error (GymVec.PyErr.attributeError
            ("attempted to get missing private attribute \x27" ++ name ++ "\x27"))) ∧
    (GymVec.startsWithUnderscore name = false →
      ∀ envAttrs : String → Option GymVecWrap.PyAttr,
        GymVecWrap.VectorWrapper_getattr envAttrs name =
          match envAttrs name with
          | some a => Except.ok a
          | none => Except.error (GymVec.PyErr.attributeError name)) := by
  constructor
  · intro h envAttrs
    unfold GymVecWrap.VectorWrapper_getattr
    simp [h]
  · intro h envAttrs
    unfold GymVecWrap.VectorWrapper_getattr
    simp [h]

/-- Witness: the C9 theorem applied at the private name and a public name
against a concrete attribute table. -/
theorem c9_witness :
    GymVecWrap.VectorWrapper_getattr
        (fun _ => some (GymVecWrap.PyAttr.plain (.int 3))) "_x" =
      Except.error (GymVec.PyErr.attributeError
        "attempted to get missing private attribute \x27_x\x27") ∧
    GymVecWrap.VectorWrapper_getattr
        (fun _ => some (GymVecWrap.PyAttr.plain (.int 3))) "y" =
      Except.ok (GymVecWrap.PyAttr.plain (.int 3)) :=
  ⟨(c9_getattr_excludes_private_names "_x").1 (by decide) _,
   (c9_getattr_excludes_private_names "y").2 (by decide) _⟩

/-- C2: call-state discipline. With the engine live (not closed): each of
`reset_async`, `step_async`, `call_async` raises `AlreadyPendingCallError`
naming the in-flight state whenever the call state is not idle, and whenever it
returns successfully the call state has moved from idle to the matching waiting
state; each `*_wait` raises `NoAsyncCallError` whenever the call state is not
the matching waiting state, and whenever it returns successfully the call state
is back to idle — so at most one asynchronous call is ever in flight. -/
theorem c2_call_state_discipline {Obs Act Info V : Type}
    (s : GymVec.AEnv Obs Act Info V) (hclosed : s.closed = false) :
    (s.state ≠ .DEFAULT → ∀ (seed : GymVec.SeedArg) (hasOptions : Bool),
      (GymVec.normalize_seed s.num_envs seed).length = s.num_envs →
      (GymVec.reset_async s seed hasOptions).2 =
        Except.error (GymVec.PyErr.AlreadyPendingCallError
          ("Calling `reset_async` while waiting for a pending call to `" ++
            s.state.value ++ "` to complete") s.state.value)) ∧
    (s.state ≠ .DEFAULT → ∀ actions : List Act,
      (GymVec.step_async s actions).2 =
        Except.error (GymVec.PyErr.AlreadyPendingCallError
          ("Calling `step_async` while waiting for a pending call to `" ++
            s.state.value ++ "` to complete.") s.state.value)) ∧
    (s.state ≠ .DEFAULT → ∀ (name : String) (args : List V),
      (GymVec.call_async s name args).2 =
        Except.error (GymVec.PyErr.AlreadyPendingCallError
          ("Calling `call_async` while waiting for a pending call to `" ++
            s.state.value ++ "` to complete.") s.state.value)) ∧
    (∀ seed hasOptions s', GymVec.reset_async s seed hasOptions = (s', .ok ()) →
      s.state = .DEFAULT ∧ s'.state = .WAITING_RESET) ∧
    (∀ (actions : List Act) s', GymVec.step_async s actions = (s', .ok ()) →
      s.state = .DEFAULT ∧ s'.state = .WAITING_STEP) ∧
    (∀ name (args : List V) s', GymVec.call_async s name args = (s', .ok ()) →
      s.state = .DEFAULT ∧ s'.state = .WAITING_CALL) ∧
    (s.state ≠ .WAITING_RESET → ∀ t, (GymVec.reset_wait s t).2.2 =
      Except.error (GymVec.PyErr.NoAsyncCallError
        "Calling `reset_wait` without any prior call to `reset_async`." "reset")) ∧
    (s.state ≠ .WAITING_STEP → ∀ t, (GymVec.step_wait s t).2.2 =
      Except.error (GymVec.PyErr.NoAsyncCallError
        "Calling `step_wait` without any prior call to `step_async`." "step")) ∧
    (s.state ≠ .WAITING_CALL → ∀ t, (GymVec.call_wait s t).2.2 =
      Except.error (GymVec.PyErr.NoAsyncCallError
        "Calling `call_wait` without any prior call to `call_async`." "call")) ∧
    (∀ t s' logs r, GymVec.reset_wait s t = (s', logs, .ok r) →
      s.state = .WAITING_RESET ∧ s'.state = .DEFAULT) ∧
    (∀ t s' logs r, GymVec.step_wait s t = (s', logs, .ok r) →
      s.state = .WAITING_STEP ∧ s'.state = .DEFAULT) ∧
    (∀ t s' logs r, GymVec.call_wait s t = (s', logs, .ok r) →
      s.state = .WAITING_CALL ∧ s'.state = .DEFAULT) := by
  refine ⟨?_, ?_, ?_, ?_, ?_, ?_, ?_, ?_, ?_, ?_, ?_, ?_⟩
  · intro hstate seed hasOptions hseed
    unfold GymVec.reset_async GymVec.assert_is_running
    simp [hclosed, hseed, hstate]
  · intro hstate actions
    unfold GymVec.step_async GymVec.assert_is_running
    simp [hclosed, hstate]
  · intro hstate name args
    unfold GymVec.call_async GymVec.assert_is_running
    simp [hclosed, hstate]
  · intro seed hasOptions s' h
    unfold GymVec.reset_async GymVec.assert_is_running at h
    rw [hclosed] at h
    simp only [Bool.false_eq_true, if_false] at h
    split at h
    · simp at h
    · split at h
      · simp at h
      · rename_i hst
        refine ⟨by simpa using hst, ?_⟩
        split at h
        · simp at h
        · simp only [Prod.mk.injEq] at h
          rw [← h.1]
  · intro actions s' h
    unfold GymVec.step_async GymVec.assert_is_running at h
    rw [hclosed] at h
    simp only [Bool.false_eq_true, if_false] at h
    split at h
    · simp at h
    · rename_i hst
      refine ⟨by simpa using hst, ?_⟩
      split at h
      · simp at h
      · simp only [Prod.mk.injEq] at h
        rw [← h.1]
  · intro name args s' h
    unfold GymVec.call_async GymVec.assert_is_running at h
    rw [hclosed] at h
    simp only [Bool.false_eq_true, if_false] at h
    split at h
    · simp at h
    · rename_i hst
      refine ⟨by simpa using hst, ?_⟩
      split at h
      · simp at h
      · simp only [Prod.mk.injEq] at h
        rw [← h.1]
  · intro hstate t
    unfold GymVec.reset_wait GymVec.assert_is_running
    simp [hclosed, hstate, GymVec.AsyncState.value]
  · intro hstate t
    unfold GymVec.step_wait GymVec.assert_is_running
    simp [hclosed, hstate, GymVec.AsyncState.value]
  · intro hstate t
    unfold GymVec.call_wait GymVec.assert_is_running
    simp [hclosed, hstate, GymVec.AsyncState.value]
  · intro t s' logs r h
    unfold GymVec.reset_wait GymVec.assert_is_running at h
    rw [hclosed] at h
    simp only [Bool.false_eq_true, if_false] at h
    split at h
    · simp at h
    · rename_i hst
      refine ⟨by simpa using hst, ?_⟩
      split at h
      · simp at h
      · split at h
        · simp at h
        · split at h
          · simp at h
          · split at h
            · simp at h
            · split at h
              · simp at h
              · split at h <;>
                  (simp only [Prod.mk.injEq] at h; rw [← h.1])
  · intro t s' logs r h
    unfold GymVec.step_wait GymVec.assert_is_running at h
    rw [hclosed] at h
    simp only [Bool.false_eq_true, if_false] at h
    split at h
    · simp at h
    · rename_i hst
      refine ⟨by simpa using hst, ?_⟩
      split at h
      · simp at h
      · split at h
        · simp at h
        · split at h
          · simp at h
          · split at h
            · simp at h
            · split at h <;>
                (simp only [Prod.mk.injEq] at h; rw [← h.1])
  · intro t s' logs r h
    unfold GymVec.call_wait GymVec.assert_is_running at h
    rw [hclosed] at h
    simp only [Bool.false_eq_true, if_false] at h
    split at h
    · simp at h
    · rename_i hst
      refine ⟨by simpa using hst, ?_⟩
      split at h
      · simp at h
      · split at h
        · simp at h
        · split at h
          · simp at h
          · split at h
            · simp at h
            · simp only [Prod.mk.injEq] at h
              rw [← h.1]

/-- Witness: the C2 theorem applied to concrete engines — `step_async` on a
pending engine raises the already-pending error, `step_wait` on an idle engine
raises the no-pending-call error, and a successful `step_async` from idle
transitions to the waiting-step state. -/
theorem c2_witness :
    (GymVec.step_async GymFix.sPendingStep ([3] : List Int)).2 =
      Except.error (GymVec.PyErr.AlreadyPendingCallError
        "Calling `step_async` while waiting for a pending call to `step` to complete."
        "step") ∧
    (GymVec.step_wait GymFix.sIdle none).2.2 =
      Except.error (GymVec.PyErr.NoAsyncCallError
        "Calling `step_wait` without any prior call to `step_async`." "step") ∧
    GymFix.sIdle.state = .DEFAULT ∧
    (GymVec.step_async GymFix.sIdle ([3] : List Int)).1.state = .WAITING_STEP :=
  ⟨(c2_call_state_discipline GymFix.sPendingStep rfl).2.1 (by decide) [3],
   (c2_call_state_discipline GymFix.sIdle rfl).2.2.2.2.2.2.2.1 (by decide) none,
   ((c2_call_state_discipline GymFix.sIdle rfl).2.2.2.2.1 [3]
      (GymVec.step_async GymFix.sIdle [3]).1 rfl).1,
   ((c2_call_state_discipline GymFix.sIdle rfl).2.2.2.2.1 [3]
      (GymVec.step_async GymFix.sIdle [3]).1 rfl).2⟩

/-- C5: timeout handling. For each `*_wait` called with a finite timeout on a
live engine in the matching waiting state, when `poll_env_processes` reports
that not every worker channel became ready within the deadline, the call
returns with the call state reset to idle and a `TimeoutError` — and the
resulting engine equals the input with only the call state changed, so no
channel was read (no partial consumption of pipe data). -/
theorem c5_wait_timeout_without_partial_read {Obs Act Info V : Type}
    (s : GymVec.AEnv Obs Act Info V) (t : Nat)
    (hclosed : s.closed = false)
    (hpoll : GymVec.poll_env_processes s (some t) = Except.ok false) :
    (s.state = .WAITING_RESET →
      GymVec.reset_wait s (some t) =
        ({ s with state := .DEFAULT }, [],
          Except.error (GymVec.PyErr.TimeoutError
            ("The call to `reset_wait` has timed out after " ++ toString t ++
              " second(s).")))) ∧
    (s.state = .WAITING_STEP →
      GymVec.step_wait s (some t) =
        ({ s with state := .DEFAULT }, [],
          Except.error (GymVec.PyErr.TimeoutError
            ("The call to `step_wait` has timed out after " ++ toString t ++
              " second(s).")))) ∧
    (s.state = .WAITING_CALL →
      GymVec.call_wait s (some t) =
        ({ s with state := .DEFAULT }, [],
          Except.error (GymVec.PyErr.TimeoutError
            ("The call to `call_wait` has timed out after " ++ toString t ++
              " second(s).")))) := by
  refine ⟨?_, ?_, ?_⟩
  · intro hstate
    unfold GymVec.reset_wait GymVec.assert_is_running
    simp [hclosed, hstate, hpoll]
  · intro hstate
    unfold GymVec.step_wait GymVec.assert_is_running
    simp [hclosed, hstate, hpoll]
  · intro hstate
    unfold GymVec.call_wait GymVec.assert_is_running
    simp [hclosed, hstate, hpoll]

/-- Witness: the C5 theorem applied to a concrete pending-step engine whose
worker pipe is not ready within the deadline. -/
theorem c5_witness :
    GymVec.step_wait GymFix.sNotReady (some 2) =
      ({ GymFix.sNotReady with state := .DEFAULT }, [],
        Except.error (GymVec.PyErr.TimeoutError
          "The call to `step_wait` has timed out after 2 second(s).")) :=
  (c5_wait_timeout_without_partial_read GymFix.sNotReady 2 rfl rfl).2.1 rfl

/-- C4 (evaluation of the code at the failing input): a graceful `close()` on a
live idle engine completes successfully, yet leaves the `closed` flag `False`
— `AsyncVectorEnv.close` neither assigns the flag nor invokes the base-class
`close` that would — so the next operation is not rejected by
`_assert_is_running` with a `ClosedEnvironmentError`; instead `reset_async`
proceeds past the check and fails with the `OSError` of sending on a closed
pipe handle. -/
theorem c4_close_never_sets_closed_flag :
    (GymVec.close GymFix.sBeforeClose none false).2.2 = Except.ok () ∧
    (GymVec.close GymFix.sBeforeClose none false).1.closed = false ∧
    (GymVec.reset_async (GymVec.close GymFix.sBeforeClose none false).1
        GymVec.SeedArg.noneS false).2 =
      Except.error GymVec.PyErr.osErrorClosedHandle :=
  ⟨rfl, rfl, rfl⟩

/-- C7 (evaluation of the code at the failing input): on a concrete inner
engine, `VectorObservationWrapper.reset` returns the observation transform
applied to the whole `(observation, info)` pair — which differs from the pair
with only the observation component transformed — and `VectorActionWrapper.step`
raises `AttributeError` because it invokes `self.action` while the hook is
defined under the name `actions`. The two step overrides that do follow the
spec (observation and reward) are evaluated alongside. -/
theorem c7_wrapper_hooks_at_failing_input :
    GymVecWrap.VectorObservationWrapper_reset GymFix.innerC7
        (fun v => GymVecWrap.PyV.tup2 v (.int 99)) none =
      GymVecWrap.PyV.tup2 (GymVecWrap.PyV.tup2 (.int 1) (.int 2)) (.int 99) ∧
    GymVecWrap.PyV.tup2 (GymVecWrap.PyV.tup2 (.int 1) (.int 2)) (.int 99) ≠
      GymVecWrap.PyV.tup2 (GymVecWrap.PyV.tup2 (.int 1) (.int 99)) (.int 2) ∧
    GymVecWrap.VectorActionWrapper_step GymFix.innerC7 (fun v => v) (.int 5) =
      Except.error (GymVec.PyErr.attributeError "action") ∧
    GymVecWrap.VectorObservationWrapper_step GymFix.innerC7
        (fun v => GymVecWrap.PyV.tup2 v (.int 99)) (.int 5) =
      (GymVecWrap.PyV.tup2 (.int 5) (.int 99), .int 10, .int 0, .int 0, .int 20) ∧
    GymVecWrap.VectorRewardWrapper_step GymFix.innerC7
        (fun v => GymVecWrap.PyV.tup2 v (.int 99)) (.int 5) =
      (.int 5, GymVecWrap.PyV.tup2 (.int 10) (.int 99), .int 0, .int 0, .int 20) :=
  ⟨rfl, by decide, rfl, rfl, rfl⟩

/-- Closed form of the drain loop of `raise_if_errors` (lines 616-628) when the
error queue starts with the entries to be drained, their worker indices are
distinct, and each indexed pipe slot is still occupied: every drained entry is
logged and its slot cleared, and the loop re-raises the last drained entry's
exception type and value. -/
theorem drainErrors_spec {Obs Act Info V : Type} :
    ∀ (front : List (Nat × String × String)) (idx : Nat) (ty val : String)
      (rest : List (Nat × String × String)) (s : GymVec.AEnv Obs Act Info V)
      (logs0 : List GymVec.LogMsg),
      s.error_queue = front ++ (idx, ty, val) :: rest →
      ((front ++ [(idx, ty, val)]).map (fun e => e.1)).Nodup →
      (∀ e ∈ front ++ [(idx, ty, val)], ∃ p, s.parent_pipes[e.1]? = some (some p)) →
      GymVec.drainErrors (front ++ [(idx, ty, val)]).length s logs0 =
        ({ s with
            error_queue := rest
            parent_pipes := (front ++ [(idx, ty, val)]).foldl
              (fun ps e => ps.set e.1 none) s.parent_pipes },
          logs0 ++
            ((front ++ [(idx, ty, val)]).map fun e =>
              [GymVec.LogMsg.errorFromWorker e.1 e.2.1 e.2.2,
               GymVec.LogMsg.shuttingDownWorker e.1]).flatten ++
            [GymVec.LogMsg.raisingLastException],
          Except.error (GymVec.PyErr.workerError ty val)) := by
  intro front
  induction front with
  | nil =>
    intro idx ty val rest s logs0 hq hnd hp
    obtain ⟨p, hp0⟩ := hp (idx, ty, val) (by simp)
    simp only [List.nil_append, List.length_cons, List.length_nil]
    unfold GymVec.drainErrors
    simp [hq, hp0]
  | cons e front ih =>
    intro idx ty val rest s logs0 hq hnd hp
    obtain ⟨ie, te, ve⟩ := e
    obtain ⟨p, hpe⟩ := hp (ie, te, ve) (by simp)
    simp only [List.cons_append, List.map_cons] at hnd
    have hcons := List.nodup_cons.mp hnd
    have hnd' : ((front ++ [(idx, ty, val)]).map (fun e => e.1)).Nodup := hcons.2
    have hie : ∀ e ∈ front ++ [(idx, ty, val)], e.1 ≠ ie := by
      intro e he hcontra
      exact hcons.1 (hcontra ▸ List.mem_map.mpr ⟨e, he, rfl⟩)
    have hlen : ((ie, te, ve) :: front ++ [(idx, ty, val)]).length
        = (front ++ [(idx, ty, val)]).length + 1 := by simp
    rw [hlen]
    unfold GymVec.drainErrors
    have hqc : s.error_queue = (ie, te, ve) :: (front ++ (idx, ty, val) :: rest) := by
      simpa using hq
    have hk : ¬ (front ++ [(idx, ty, val)]).length = 0 := by simp
    simp only [hqc, hpe, hk, if_false]
    rw [ih idx ty val rest _ _ rfl hnd']
    · simp [List.append_assoc]
    · intro e he
      obtain ⟨q, hqe⟩ := hp e (List.mem_cons_of_mem _ he)
      refine ⟨q, ?_⟩
      simpa [List.getElem?_set_ne (Ne.symm (hie e he))] using hqe

/-- C3: worker-failure propagation. A round whose acknowledgements are all
successful raises nothing and changes nothing. When the acknowledgements
contain at least one failure flag and the error queue starts with one
`(index, exception-type, exception-value)` entry per failed worker
(`num_envs - sum(successes)` of them, with distinct, still-occupied worker
slots), `raise_if_errors` drains exactly those entries, logs each one, closes
each drained worker's channel and clears its pipe slot, and re-raises exactly
the last drained entry's exception type and value; all other drained failures
are logged but not re-raised. -/
theorem c3_raise_if_errors_contract {Obs Act Info V : Type}
    (s : GymVec.AEnv Obs Act Info V) (successes : List Bool) :
    (successes.all id = true →
      GymVec.raise_if_errors s successes = (s, [], Except.ok ())) ∧
    (∀ (front : List (Nat × String × String)) (idx : Nat) (ty val : String)
        (rest : List (Nat × String × String)),
      successes.all id = false →
      s.error_queue = front ++ (idx, ty, val) :: rest →
      (front ++ [(idx, ty, val)]).length = s.num_envs - successes.count true →
      ((front ++ [(idx, ty, val)]).map (fun e => e.1)).Nodup →
      (∀ e ∈ front ++ [(idx, ty, val)], ∃ p, s.parent_pipes[e.1]? = some (some p)) →
      GymVec.raise_if_errors s successes =
        ({ s with
            error_queue := rest
            parent_pipes := (front ++ [(idx, ty, val)]).foldl
              (fun ps e => ps.set e.1 none) s.parent_pipes },
          ((front ++ [(idx, ty, val)]).map fun e =>
            [GymVec.LogMsg.errorFromWorker e.1 e.2.1 e.2.2,
             GymVec.LogMsg.shuttingDownWorker e.1]).flatten ++
            [GymVec.LogMsg.raisingLastException],
          Except.error (GymVec.PyErr.workerError ty val))) := by
  constructor
  · intro hall
    unfold GymVec.raise_if_errors
    simp [hall]
  · intro front idx ty val rest hall hq hlen hnd hp
    unfold GymVec.raise_if_errors
    rw [hall]
    have hne : ¬ (s.num_envs - successes.count true = 0) := by
      rw [← hlen]; simp
    simp only [Bool.false_eq_true, if_false, hne, ite_false]
    rw [← hlen]
    simpa using drainErrors_spec front idx ty val rest s [] hq hnd hp

/-- Witness: the C3 theorem applied to a two-worker engine whose second worker
failed with a `RuntimeError`. -/
theorem c3_witness :
    GymVec.raise_if_errors GymFix.sTwoWithError [true, false] =
      ({ GymFix.sTwoWithError with
          error_queue := []
          parent_pipes := [some GymFix.pOpen, none] },
        [GymVec.LogMsg.errorFromWorker 1 "RuntimeError" "bad",
         GymVec.LogMsg.shuttingDownWorker 1,
         GymVec.LogMsg.raisingLastException],
        Except.error (GymVec.PyErr.workerError "RuntimeError" "bad")) := by
  have h := (c3_raise_if_errors_contract GymFix.sTwoWithError [true, false]).2
    [] 1 "RuntimeError" "bad" [] (by decide) rfl (by decide) (by decide)
    (by
      intro e he
      rw [List.nil_append, List.mem_singleton] at he
      subst he
      exact ⟨GymFix.pOpen, rfl⟩)
  rw [h]
  rfl

/-- The drain loop of `raise_if_errors` touches only the error queue and the
pipe slots: the call state and the closed flag are preserved. -/
theorem drainErrors_preserves {Obs Act Info V : Type} :
    ∀ (k : Nat) (s : GymVec.AEnv Obs Act Info V) (logs : List GymVec.LogMsg),
      (GymVec.drainErrors k s logs).1.state = s.state ∧
      (GymVec.drainErrors k s logs).1.closed = s.closed := by
  intro k
  induction k with
  | zero => intro s logs; exact ⟨rfl, rfl⟩
  | succ k ih =>
    intro s logs
    unfold GymVec.drainErrors
    try dsimp only
    split
    · exact ⟨rfl, rfl⟩
    · try dsimp only
      split <;>
        first
        | exact ⟨rfl, rfl⟩
        | (try dsimp only
           split <;>
             first
             | exact ⟨rfl, rfl⟩
             | exact ih _ _)

/-- `raise_if_errors` preserves the call state and the closed flag. -/
theorem raise_if_errors_preserves {Obs Act Info V : Type}
    (s : GymVec.AEnv Obs Act Info V) (successes : List Bool) :
    (GymVec.raise_if_errors s successes).1.state = s.state ∧
    (GymVec.raise_if_errors s successes).1.closed = s.closed := by
  unfold GymVec.raise_if_errors
  try dsimp only
  split
  · exact ⟨rfl, rfl⟩
  · try dsimp only
    split
    · exact ⟨rfl, rfl⟩
    · exact drainErrors_preserves _ _ _

/-- Equation form of `raise_if_errors_preserves`. -/
theorem raise_if_errors_fst_inv {Obs Act Info V : Type}
    (s s1 : GymVec.AEnv Obs Act Info V) (successes : List Bool)
    (logs1 : List GymVec.LogMsg) (r : Except GymVec.PyErr Unit)
    (h : GymVec.raise_if_errors s successes = (s1, logs1, r)) :
    s1.state = s.state ∧ s1.closed = s.closed := by
  have hp := raise_if_errors_preserves s successes
  rw [h] at hp
  exact hp

/-- C6: after a worker failure has been re-raised by `step_wait` (which closed
the failed worker's channel and cleared its pipe slot), the call state is still
`WAITING_STEP` — the assignment back to idle comes only after
`raise_if_errors` — so a subsequent `get_attr` raises `AlreadyPendingCallError`
inside `call_async` before any send: the engine it returns equals its input, no
message is appended to any pipe, and in particular the failed worker's closed
channel is never contacted. -/
theorem c6_get_attr_after_step_wait_failure {Obs Act Info V : Type}
    (s s' : GymVec.AEnv Obs Act Info V) (t : Option Nat)
    (logs : List GymVec.LogMsg) (ty val : String) (name : String)
    (hclosed : s.closed = false)
    (hfail : GymVec.step_wait s t =
      (s', logs, Except.error (GymVec.PyErr.workerError ty val))) :
    s'.state = GymVec.AsyncState.WAITING_STEP ∧
    GymVec.get_attr s' name =
      (s', [], Except.error (GymVec.PyErr.AlreadyPendingCallError
        "Calling `call_async` while waiting for a pending call to `step` to complete."
        "step")) := by
  have hkey : s'.state = GymVec.AsyncState.WAITING_STEP ∧ s'.closed = false := by
    unfold GymVec.step_wait GymVec.assert_is_running at hfail
    rw [hclosed] at hfail
    simp only [Bool.false_eq_true, if_false] at hfail
    split at hfail
    · simp at hfail
    · rename_i hst
      have hstate : s.state = GymVec.AsyncState.WAITING_STEP := by simpa using hst
      split at hfail
      · simp only [Prod.mk.injEq] at hfail
        rw [← hfail.1]
        exact ⟨hstate, hclosed⟩
      · split at hfail
        · simp at hfail
        · split at hfail
          · simp only [Prod.mk.injEq] at hfail
            rw [← hfail.1]
            exact ⟨hstate, rfl⟩
          · split at hfail
            · rename_i s1 logs1 e1 heq
              simp only [Prod.mk.injEq] at hfail
              have hs1 := raise_if_errors_fst_inv _ s1 _ logs1 _ heq
              rw [← hfail.1]
              exact ⟨hs1.1.trans hstate, hs1.2⟩
            · simp at hfail
  refine ⟨hkey.1, ?_⟩
  unfold GymVec.get_attr GymVec.call GymVec.call_async GymVec.assert_is_running
  rw [hkey.2, hkey.1]
  simp [GymVec.AsyncState.value]

/-- Witness: the C6 theorem applied to a concrete engine whose worker delivered
a failure-flagged step reply with a matching error-queue entry. -/
theorem c6_witness :
    (GymVec.step_wait GymFix.sFailingStep none).1.state =
      GymVec.AsyncState.WAITING_STEP ∧
    GymVec.get_attr (GymVec.step_wait GymFix.sFailingStep none).1 "spec" =
      ((GymVec.step_wait GymFix.sFailingStep none).1, [],
        Except.error (GymVec.PyErr.AlreadyPendingCallError
          "Calling `call_async` while waiting for a pending call to `step` to complete."
          "step")) :=
  c6_get_attr_after_step_wait_failure GymFix.sFailingStep
    (GymVec.step_wait GymFix.sFailingStep none).1 none
    (GymVec.step_wait GymFix.sFailingStep none).2.1 "ValueError" "boom" "spec"
    rfl rfl

/-- Sending one message per worker over a full row of open pipes succeeds and
appends each message to its pipe. -/
theorem sendZip_replicate {Obs Act Info V : Type} (p0 : GymVec.Pipe Obs Act Info V)
    (hopen : p0.closed = false) :
    ∀ msgs : List (GymVec.WorkerCmd Act V),
      GymVec.sendZip (List.replicate msgs.length (some p0)) msgs =
        (msgs.map fun m => some { p0 with sent := p0.sent ++ [m] }, Except.ok ()) := by
  intro msgs
  induction msgs with
  | nil => rfl
  | cons m ms ih =>
    simp only [List.length_cons, List.replicate_succ, List.map_cons, GymVec.sendZip,
      GymVec.pipeSend, hopen, Bool.false_eq_true, if_false, ih]

/-- The receive loop of `step_wait` over a row of open pipes each holding
exactly one step reply: every reply is consumed in index order. -/
theorem stepRecvAll_map {Obs Act Info V X : Type} (f : X → GymVec.StepRecv Obs Info) :
    ∀ l : List X,
      @GymVec.stepRecvAll Obs Act Info V
        (l.map fun x => some ⟨[], [(GymVec.Payload.stepP (f x).obs (f x).reward
          (f x).terminated (f x).truncated (f x).info, (f x).success)], false, true⟩) =
      (l.map fun _ => some ⟨[], [], false, true⟩, Except.ok (l.map f)) := by
  intro l
  induction l with
  | nil => rfl
  | cons x xs ih =>
    simp only [List.map_cons, GymVec.stepRecvAll, GymVec.pipeRecv, Bool.false_eq_true,
      if_false, ih]
    rfl

/-- One worker pass over a row of pipes that each hold exactly one pending step
command: every worker consumes its command, steps (or resets, per its flag),
and buffers its `(result, True)` reply. -/
theorem workersRun_post {σ Obs Act Info V : Type} (rdy : Bool) :
    ∀ (envs : List (GymVec.SubEnv σ Obs Act Info)) (sts : List σ)
      (actions : List Act) (flags : List Bool),
      envs.length = sts.length → envs.length = actions.length →
      envs.length = flags.length →
      GymVec.workersRun (V := V) envs sts
        ((actions.zip flags).map fun af =>
          some ⟨[GymVec.WorkerCmd.stepC af.1 af.2], [], false, rdy⟩) =
      (((envs.zip sts).zip (actions.zip flags)).map fun q =>
          GymVec.stepNewState q.1.1 q.1.2 q.2.1 q.2.2,
       ((envs.zip sts).zip (actions.zip flags)).map fun q =>
          some ⟨[], [(GymVec.Payload.stepP
            (GymVec.stepRecvOf q.1.1 q.1.2 q.2.1 q.2.2).obs
            (GymVec.stepRecvOf q.1.1 q.1.2 q.2.1 q.2.2).reward
            (GymVec.stepRecvOf q.1.1 q.1.2 q.2.1 q.2.2).terminated
            (GymVec.stepRecvOf q.1.1 q.1.2 q.2.1 q.2.2).truncated
            (GymVec.stepRecvOf q.1.1 q.1.2 q.2.1 q.2.2).info,
            (GymVec.stepRecvOf q.1.1 q.1.2 q.2.1 q.2.2).success)], false, true⟩) := by
  intro envs
  induction envs with
  | nil =>
    intro sts actions flags h1 h2 h3
    obtain rfl : sts = [] := List.length_eq_zero.mp h1.symm
    obtain rfl : actions = [] := List.length_eq_zero.mp h2.symm
    obtain rfl : flags = [] := List.length_eq_zero.mp h3.symm
    rfl
  | cons e es ih =>
    intro sts actions flags h1 h2 h3
    cases sts with
    | nil => simp at h1
    | cons st sts =>
      cases actions with
      | nil => simp at h2
      | cons a as =>
        cases flags with
        | nil => simp at h3
        | cons fl fls =>
          simp only [List.length_cons, Nat.succ.injEq] at h1 h2 h3
          simp only [List.zip] at ih ⊢
          simp only [List.zipWith_cons_cons, List.map_cons, GymVec.workersRun,
            GymVec.workerProcessOne]
          rw [ih sts as fls h1 h2 h3]
          rfl

/-- Closed form of one step round (`step_async`, one worker pass, `step_wait`
with no timeout) on a live idle engine with a full row of fresh open pipes:
per-index results come from `workerStepCommand`, and the pending-reset flags
are recomputed as the pointwise OR of the returned terminations and
truncations. -/
theorem stepRound_closed_form {σ Obs Act Info V : Type}
    (envs : List (GymVec.SubEnv σ Obs Act Info)) (sts : List σ)
    (actions : List Act) (s : GymVec.AEnv Obs Act Info V) (rdy : Bool)
    (hclosed : s.closed = false) (hstate : s.state = GymVec.AsyncState.DEFAULT)
    (hshared : s.shared_memory = false)
    (hpipes : s.parent_pipes = List.replicate envs.length (some ⟨[], [], false, rdy⟩))
    (h1 : envs.length = sts.length) (h2 : envs.length = actions.length)
    (h3 : envs.length = s.to_reset_envs.length) :
    GymVec.stepRound envs sts s actions =
      (((envs.zip sts).zip (actions.zip s.to_reset_envs)).map fun q =>
          GymVec.stepNewState q.1.1 q.1.2 q.2.1 q.2.2,
       { s with
          parent_pipes := ((envs.zip sts).zip (actions.zip s.to_reset_envs)).map
            fun _ => some ⟨[], [], false, true⟩
          state := GymVec.AsyncState.DEFAULT
          observations := ((envs.zip sts).zip (actions.zip s.to_reset_envs)).map
            fun q => (GymVec.stepRecvOf q.1.1 q.1.2 q.2.1 q.2.2).obs
          to_reset_envs := List.zipWith (· || ·)
            (((envs.zip sts).zip (actions.zip s.to_reset_envs)).map
              fun q => (GymVec.stepRecvOf q.1.1 q.1.2 q.2.1 q.2.2).terminated)
            (((envs.zip sts).zip (actions.zip s.to_reset_envs)).map
              fun q => (GymVec.stepRecvOf q.1.1 q.1.2 q.2.1 q.2.2).truncated) },
       [],
       Except.ok
         (((envs.zip sts).zip (actions.zip s.to_reset_envs)).map
            fun q => (GymVec.stepRecvOf q.1.1 q.1.2 q.2.1 q.2.2).obs,
          ((envs.zip sts).zip (actions.zip s.to_reset_envs)).map
            fun q => (GymVec.stepRecvOf q.1.1 q.1.2 q.2.1 q.2.2).reward,
          ((envs.zip sts).zip (actions.zip s.to_reset_envs)).map
            fun q => (GymVec.stepRecvOf q.1.1 q.1.2 q.2.1 q.2.2).terminated,
          ((envs.zip sts).zip (actions.zip s.to_reset_envs)).map
            fun q => (GymVec.stepRecvOf q.1.1 q.1.2 q.2.1 q.2.2).truncated,
          ((envs.zip sts).zip (actions.zip s.to_reset_envs)).map
            fun q => (GymVec.stepRecvOf q.1.1 q.1.2 q.2.1 q.2.2).info)) := by
  have hmsgslen :
      ((actions.zip s.to_reset_envs).map
        (fun at_ => GymVec.WorkerCmd.stepC (V := V) at_.1 at_.2)).length
        = envs.length := by
    simp [List.length_zip, ← h2, ← h3]
  have hasync : GymVec.step_async s actions =
      ({ s with
          parent_pipes := (actions.zip s.to_reset_envs).map fun af =>
            some ⟨[GymVec.WorkerCmd.stepC af.1 af.2], [], false, rdy⟩
          state := GymVec.AsyncState.WAITING_STEP }, Except.ok ()) := by
    unfold GymVec.step_async GymVec.assert_is_running
    rw [hclosed, hstate]
    simp only [Bool.false_eq_true, if_false, ne_eq, not_true_eq_false, ite_false,
      reduceCtorEq]
    rw [hpipes, ← hmsgslen,
      sendZip_replicate (⟨[], [], false, rdy⟩ : GymVec.Pipe Obs Act Info V) rfl]
    simp [List.map_map, Function.comp]
  unfold GymVec.stepRound
  rw [hasync]
  have hworkers := workersRun_post (σ := σ) (V := V) rdy envs sts actions
    s.to_reset_envs h1 h2 h3
  dsimp only
  rw [hworkers]
  dsimp only
  have hwait := @stepRecvAll_map Obs Act Info V
    ((GymVec.SubEnv σ Obs Act Info × σ) × Act × Bool)
    (fun q => GymVec.stepRecvOf q.1.1 q.1.2 q.2.1 q.2.2)
    ((envs.zip sts).zip (actions.zip s.to_reset_envs))
  unfold GymVec.step_wait GymVec.assert_is_running GymVec.poll_env_processes
  dsimp only
  rw [hclosed]
  simp only [Bool.false_eq_true, if_false, ne_eq, not_true_eq_false, ite_false,
    reduceCtorEq, Bool.not_true]
  rw [hwait]
  dsimp only
  have hall : ((((envs.zip sts).zip (actions.zip s.to_reset_envs)).map
      (fun q => GymVec.stepRecvOf q.1.1 q.1.2 q.2.1 q.2.2)).map
        (fun x => x.success)).all id = true := by
    simp [List.all_eq_true, List.map_map, GymVec.stepRecvOf]
  unfold GymVec.raise_if_errors
  rw [hall]
  simp only [if_true, hshared, Bool.not_false, List.map_map]
  rfl

/-- C1: autoreset. For a live idle engine (shared memory off) with a fresh open
pipe per worker, one full step round: (a) after the round the pending-reset
flags are recomputed as the pointwise OR of the returned termination and
truncation vectors, and (b) every index whose pending-reset flag was set has
its sub-environment reset instead of stepped — the new worker-side state is the
reset state and the returned entry is the fresh reset observation and info with
reward `0`, `terminated = False`, `truncated = False`. The values at such an
index are produced by `env.reset` alone and the theorem holds for every action
list, so the action supplied at that index is ignored. -/
theorem c1_autoreset {σ Obs Act Info V : Type}
    (envs : List (GymVec.SubEnv σ Obs Act Info)) (sts : List σ)
    (actions : List Act) (s : GymVec.AEnv Obs Act Info V) (rdy : Bool)
    (hclosed : s.closed = false) (hstate : s.state = GymVec.AsyncState.DEFAULT)
    (hshared : s.shared_memory = false)
    (hpipes : s.parent_pipes = List.replicate envs.length (some ⟨[], [], false, rdy⟩))
    (h1 : envs.length = sts.length) (h2 : envs.length = actions.length)
    (h3 : envs.length = s.to_reset_envs.length) :
    ∃ newSts s' obsL rewL termL truncL infoL,
      GymVec.stepRound envs sts s actions =
        (newSts, s', [], Except.ok (obsL, rewL, termL, truncL, infoL)) ∧
      s'.to_reset_envs = List.zipWith (· || ·) termL truncL ∧
      s'.state = GymVec.AsyncState.DEFAULT ∧
      (∀ i : Nat, s.to_reset_envs[i]? = some true →
        ∃ e st, envs[i]? = some e ∧ sts[i]? = some st ∧
          obsL[i]? = some (some (e.reset ⟨none, false⟩ st).2.1) ∧
          rewL[i]? = some 0 ∧
          termL[i]? = some false ∧
          truncL[i]? = some false ∧
          infoL[i]? = some (e.reset ⟨none, false⟩ st).2.2 ∧
          newSts[i]? = some (e.reset ⟨none, false⟩ st).1) := by
  have hc := stepRound_closed_form envs sts actions s rdy hclosed hstate hshared
    hpipes h1 h2 h3
  have hidx : ∀ i : Nat, s.to_reset_envs[i]? = some true →
      ∃ e st, envs[i]? = some e ∧ sts[i]? = some st ∧
        (((envs.zip sts).zip (actions.zip s.to_reset_envs)).map
          fun q => (GymVec.stepRecvOf q.1.1 q.1.2 q.2.1 q.2.2).obs)[i]? =
            some (some (e.reset ⟨none, false⟩ st).2.1) ∧
        (((envs.zip sts).zip (actions.zip s.to_reset_envs)).map
          fun q => (GymVec.stepRecvOf q.1.1 q.1.2 q.2.1 q.2.2).reward)[i]? = some 0 ∧
        (((envs.zip sts).zip (actions.zip s.to_reset_envs)).map
          fun q => (GymVec.stepRecvOf q.1.1 q.1.2 q.2.1 q.2.2).terminated)[i]? =
            some false ∧
        (((envs.zip sts).zip (actions.zip s.to_reset_envs)).map
          fun q => (GymVec.stepRecvOf q.1.1 q.1.2 q.2.1 q.2.2).truncated)[i]? =
            some false ∧
        (((envs.zip sts).zip (actions.zip s.to_reset_envs)).map
          fun q => (GymVec.stepRecvOf q.1.1 q.1.2 q.2.1 q.2.2).info)[i]? =
            some (e.reset ⟨none, false⟩ st).2.2 ∧
        (((envs.zip sts).zip (actions.zip s.to_reset_envs)).map
          fun q => GymVec.stepNewState q.1.1 q.1.2 q.2.1 q.2.2)[i]? =
            some (e.reset ⟨none, false⟩ st).1 := ?_
  case _ => exact ⟨_, _, _, _, _, _, _, hc, rfl, rfl, hidx⟩
  intro i hflag
  have hi : i < s.to_reset_envs.length := by
    by_contra hge
    rw [List.getElem?_eq_none (Nat.le_of_not_lt hge)] at hflag
    exact Option.noConfusion hflag
  have hie : i < envs.length := by omega
  have his : i < sts.length := by omega
  have hia : i < actions.length := by omega
  have hq : ((envs.zip sts).zip (actions.zip s.to_reset_envs))[i]? =
      some ((envs[i], sts[i]), (actions[i], true)) := by
    refine List.getElem?_zip_eq_some.mpr ⟨?_, ?_⟩
    · exact List.getElem?_zip_eq_some.mpr
        ⟨List.getElem?_eq_getElem hie, List.getElem?_eq_getElem his⟩
    · exact List.getElem?_zip_eq_some.mpr
        ⟨List.getElem?_eq_getElem hia, hflag⟩
  refine ⟨envs[i], sts[i], List.getElem?_eq_getElem hie,
    List.getElem?_eq_getElem his, ?_, ?_, ?_, ?_, ?_, ?_⟩ <;>
    simp [hq, GymVec.stepRecvOf, GymVec.workerStepCommand, GymVec.stepNewState]

/-- Witness: the C1 theorem applied to a one-environment engine whose single
pending-reset flag is set. -/
theorem c1_witness :
    ∃ (newSts : List Nat) (s' : GymVec.AEnv Int Int Int Int)
      (obsL : List (Option Int)) (rewL : List Int) (termL truncL : List Bool)
      (infoL : List Int),
      GymVec.stepRound [GymFix.envNat] [5] GymFix.sAutoreset [3] =
        (newSts, s', [], Except.ok (obsL, rewL, termL, truncL, infoL)) ∧
      s'.to_reset_envs = List.zipWith (· || ·) termL truncL ∧
      s'.state = GymVec.AsyncState.DEFAULT ∧
      (∀ i : Nat, GymFix.sAutoreset.to_reset_envs[i]? = some true →
        ∃ e st,
          ([GymFix.envNat] : List (GymVec.SubEnv Nat Int Int Int))[i]? = some e ∧
          ([5] : List Nat)[i]? = some st ∧
          obsL[i]? = some (some (e.reset ⟨none, false⟩ st).2.1) ∧
          rewL[i]? = some 0 ∧ termL[i]? = some false ∧ truncL[i]? = some false ∧
          infoL[i]? = some (e.reset ⟨none, false⟩ st).2.2 ∧
          newSts[i]? = some (e.reset ⟨none, false⟩ st).1) :=
  c1_autoreset [GymFix.envNat] [5] [3] GymFix.sAutoreset true rfl rfl rfl rfl
    rfl rfl rfl

namespace GymVecInfo

variable {V : Type} {α : Type}

theorem dictGet_dictSet_self (d : List (String × α)) (k : String) (v : α) :
    dictGet (dictSet d k v) k = some v := by
  induction d with
  | nil => simp [dictGet, dictSet]
  | cons e rest ih =>
    by_cases h : e.1 = k
    · simp [dictGet, dictSet, h]
    · simp [dictGet, dictSet, h, ih]

theorem dictGet_dictSet_ne (d : List (String × α)) (k k' : String) (v : α)
    (h : k' ≠ k) : dictGet (dictSet d k v) k' = dictGet d k' := by
  induction d with
  | nil => simp [dictGet, dictSet, Ne.symm h]
  | cons e rest ih =>
    by_cases he : e.1 = k
    · subst he
      simp only [dictSet, if_pos rfl, dictGet]
      rw [if_neg, if_neg] <;> exact fun hc => h hc.symm
    · simp only [dictSet, if_neg he, dictGet]
      by_cases he' : e.1 = k'
      · simp [he']
      · simp [he', ih]

theorem keys_dictSet (d : List (String × α)) (k : String) (v : α) :
    (dictSet d k v).map (fun e => e.1) =
      if k ∈ d.map (fun e => e.1) then d.map (fun e => e.1)
      else d.map (fun e => e.1) ++ [k] := by
  induction d with
  | nil => simp [dictSet]
  | cons e rest ih =>
    by_cases he : e.1 = k
    · simp [dictSet, he]
    · simp only [dictSet, if_neg he, List.map_cons, ih]
      by_cases hm : k ∈ rest.map (fun e => e.1)
      · simp [hm]
      · simp [hm, Ne.symm he]

theorem keys_dictSet_nodup (d : List (String × α)) (k : String) (v : α)
    (h : (d.map (fun e => e.1)).Nodup) :
    ((dictSet d k v).map (fun e => e.1)).Nodup := by
  rw [keys_dictSet]
  by_cases hm : k ∈ d.map (fun e => e.1)
  · simpa [hm] using h
  · rw [if_neg hm, List.nodup_append]
    exact ⟨h, List.nodup_singleton _,
      fun a ha hb => hm ((List.mem_singleton.mp hb) ▸ ha)⟩

theorem dictGet_isSome_iff_mem (d : List (String × α)) (k : String) :
    (dictGet d k).isSome = true ↔ k ∈ d.map (fun e => e.1) := by
  induction d with
  | nil => simp [dictGet]
  | cons e rest ih =>
    by_cases he : e.1 = k
    · simp [dictGet, he]
    · simp [dictGet, he, ih, Ne.symm he]

theorem dictGet_of_mem_nodup (d : List (String × α)) (k : String) (c : α)
    (hnd : (d.map (fun e => e.1)).Nodup) (hm : (k, c) ∈ d) :
    dictGet d k = some c := by
  induction d with
  | nil => simp at hm
  | cons e rest ih =>
    simp only [List.map_cons, List.nodup_cons] at hnd
    rcases List.mem_cons.mp hm with he | hm'
    · simp [dictGet, ← he]
    · have hke : e.1 ≠ k := by
        intro hc
        exact hnd.1 (hc ▸ List.mem_map.mpr ⟨(k, c), hm', rfl⟩)
      simp [dictGet, hke, ih hnd.2 hm']

theorem startsWithUnderscore_append (k : String) :
    GymVec.startsWithUnderscore ("_" ++ k) = true := by
  simp [GymVec.startsWithUnderscore, String.data_append]

theorem underscore_append_inj {a b : String} (h : "_" ++ a = "_" ++ b) :
    a = b := by
  apply String.ext
  have := congrArg String.data h
  simpa [String.data_append] using this

theorem specArr_length (ds : List (List (String × V))) (n : Nat) (v0 : V)
    (m : Nat) (k : String) : (specArr ds n v0 m k).length = n := by
  simp [specArr]

theorem specMask_length (ds : List (List (String × V))) (n m : Nat)
    (k : String) : (specMask ds n m k).length = n := by
  simp [specMask]

theorem specArr_getElem (ds : List (List (String × V))) (n : Nat) (v0 : V)
    (m : Nat) (k : String) (i : Nat) (h : i < n) :
    (specArr ds n v0 m k)[i]? =
      some (if i < m then (dsVal ds k i).getD v0 else v0) := by
  simp [specArr, List.getElem?_range h]

theorem specMask_getElem (ds : List (List (String × V))) (n m : Nat)
    (k : String) (i : Nat) (h : i < n) :
    (specMask ds n m k)[i]? =
      some (decide (i < m) && (dsVal ds k i).isSome) := by
  simp [specMask, List.getElem?_range h]

theorem supplied_zero (ds : List (List (String × V))) (k : String) :
    ¬ supplied ds 0 k := by
  rintro ⟨j, hj, _⟩
  omega

theorem supplied_succ_iff (ds : List (List (String × V))) (m : Nat)
    (k : String) :
    supplied ds (m + 1) k ↔ supplied ds m k ∨ (dsVal ds k m).isSome = true := by
  constructor
  · rintro ⟨j, hj, hs⟩
    by_cases hjm : j = m
    · exact Or.inr (hjm ▸ hs)
    · exact Or.inl ⟨j, by omega, hs⟩
  · rintro (⟨j, hj, hs⟩ | hs)
    · exact ⟨j, by omega, hs⟩
    · exact ⟨m, by omega, hs⟩

theorem supplied_mono (ds : List (List (String × V))) (m : Nat) (k : String)
    (h : supplied ds m k) : supplied ds (m + 1) k :=
  (supplied_succ_iff ds m k).mpr (Or.inl h)

theorem specArr_set (ds : List (List (String × V))) (n : Nat) (v0 : V)
    (m : Nat) (k : String) (hm : m < n) (v : V) (hv : dsVal ds k m = some v) :
    (specArr ds n v0 m k).set m v = specArr ds n v0 (m + 1) k := by
  apply List.ext_getElem?
  intro i
  by_cases hi : i < n
  · by_cases him : i = m
    · subst him
      rw [List.getElem?_set_self (by simpa [specArr_length] using hi),
        specArr_getElem _ _ _ _ _ _ hi]
      simp [hv]
    · rw [List.getElem?_set_ne (fun hc => him hc.symm),
        specArr_getElem ds n v0 m k i hi, specArr_getElem _ _ _ _ _ _ hi]
      by_cases h2 : i < m
      · simp [h2, Nat.lt_succ_of_lt h2]
      · have h3 : ¬ i < m + 1 := by omega
        simp [h2, h3]
  · rw [List.getElem?_eq_none (by simpa [specArr_length] using Nat.le_of_not_lt hi),
      List.getElem?_eq_none (by simpa [specArr_length] using Nat.le_of_not_lt hi)]

theorem replicate_set_specArr (ds : List (List (String × V))) (n : Nat)
    (v0 : V) (m : Nat) (k : String) (hm : m < n) (v : V)
    (hv : dsVal ds k m = some v) (hnone : ∀ j, j < m → dsVal ds k j = none) :
    (List.replicate n v0).set m v = specArr ds n v0 (m + 1) k := by
  apply List.ext_getElem?
  intro i
  by_cases hi : i < n
  · by_cases him : i = m
    · subst him
      rw [List.getElem?_set_self (by simpa using hi),
        specArr_getElem _ _ _ _ _ _ hi]
      simp [hv]
    · rw [List.getElem?_set_ne (fun hc => him hc.symm),
        specArr_getElem _ _ _ _ _ _ hi, List.getElem?_replicate]
      by_cases h2 : i < m
      · simp [hi, Nat.lt_succ_of_lt h2, hnone i h2]
      · have h3 : ¬ i < m + 1 := by omega
        simp [hi, h3]
  · rw [List.getElem?_eq_none (by simpa using Nat.le_of_not_lt hi),
      List.getElem?_eq_none (by simpa [specArr_length] using Nat.le_of_not_lt hi)]

theorem specMask_set (ds : List (List (String × V))) (n m : Nat) (k : String)
    (hm : m < n) (hv : (dsVal ds k m).isSome = true) :
    (specMask ds n m k).set m true = specMask ds n (m + 1) k := by
  apply List.ext_getElem?
  intro i
  by_cases hi : i < n
  · by_cases him : i = m
    · subst him
      rw [List.getElem?_set_self (by simpa [specMask_length] using hi),
        specMask_getElem _ _ _ _ _ hi]
      simp [hv]
    · rw [List.getElem?_set_ne (fun hc => him hc.symm),
        specMask_getElem ds n m k i hi, specMask_getElem _ _ _ _ _ hi]
      by_cases h2 : i < m
      · simp [h2, Nat.lt_succ_of_lt h2]
      · have h3 : ¬ i < m + 1 := by omega
        simp [h2, h3]
  · rw [List.getElem?_eq_none (by simpa [specMask_length] using Nat.le_of_not_lt hi),
      List.getElem?_eq_none (by simpa [specMask_length] using Nat.le_of_not_lt hi)]

theorem replicate_set_specMask (ds : List (List (String × V))) (n m : Nat)
    (k : String) (hm : m < n) (hv : (dsVal ds k m).isSome = true)
    (hnone : ∀ j, j < m → dsVal ds k j = none) :
    (List.replicate n false).set m true = specMask ds n (m + 1) k := by
  apply List.ext_getElem?
  intro i
  by_cases hi : i < n
  · by_cases him : i = m
    · subst him
      rw [List.getElem?_set_self (by simpa using hi),
        specMask_getElem _ _ _ _ _ hi]
      simp [hv]
    · rw [List.getElem?_set_ne (fun hc => him hc.symm),
        specMask_getElem _ _ _ _ _ hi, List.getElem?_replicate]
      by_cases h2 : i < m
      · simp [hi, Nat.lt_succ_of_lt h2, hnone i h2]
      · have h3 : ¬ i < m + 1 := by omega
        simp [hi, h3]
  · rw [List.getElem?_eq_none (by simpa using Nat.le_of_not_lt hi),
      List.getElem?_eq_none (by simpa [specMask_length] using Nat.le_of_not_lt hi)]

theorem specArr_stable (ds : List (List (String × V))) (n : Nat) (v0 : V)
    (m : Nat) (k : String) (h : dsVal ds k m = none) :
    specArr ds n v0 (m + 1) k = specArr ds n v0 m k := by
  apply List.ext_getElem?
  intro i
  by_cases hi : i < n
  · rw [specArr_getElem _ _ _ _ _ _ hi, specArr_getElem ds n v0 m k i hi]
    by_cases h2 : i < m
    · simp [h2, Nat.lt_succ_of_lt h2]
    · by_cases h3 : i = m
      · subst h3
        simp [h2, h]
      · have h4 : ¬ i < m + 1 := by omega
        simp [h2, h4]
  · rw [List.getElem?_eq_none (by simpa [specArr_length] using Nat.le_of_not_lt hi),
      List.getElem?_eq_none (by simpa [specArr_length] using Nat.le_of_not_lt hi)]

theorem specMask_stable (ds : List (List (String × V))) (n m : Nat)
    (k : String) (h : dsVal ds k m = none) :
    specMask ds n (m + 1) k = specMask ds n m k := by
  apply List.ext_getElem?
  intro i
  by_cases hi : i < n
  · rw [specMask_getElem _ _ _ _ _ hi, specMask_getElem ds n m k i hi]
    by_cases h2 : i < m
    · simp [h2, Nat.lt_succ_of_lt h2]
    · by_cases h3 : i = m
      · subst h3
        simp [h2, h]
      · have h4 : ¬ i < m + 1 := by omega
        simp [h2, h4]
  · rw [List.getElem?_eq_none (by simpa [specMask_length] using Nat.le_of_not_lt hi),
      List.getElem?_eq_none (by simpa [specMask_length] using Nat.le_of_not_lt hi)]

end GymVecInfo

namespace GymVecInfo

/-- Storing key `k`'s updated value array and mask (as `_add_info` does for one
entry of environment `m`'s dict) advances the staged invariant by `k`. -/
theorem MIX_insert {V : Type} (ds : List (List (String × V))) (n : Nat)
    (v0 : V) (m : Nat) (P : List String) (I : List (String × InfoCell V))
    (k : String) (v : V)
    (hundk : GymVec.startsWithUnderscore k = false)
    (hvk : dsVal ds k m = some v)
    (hkP : k ∉ P)
    (hI : MIX ds n v0 m P I) :
    MIX ds n v0 m (P ++ [k])
      (dictSet (dictSet I k (InfoCell.varr (specArr ds n v0 (m + 1) k)))
        ("_" ++ k) (InfoCell.marr (specMask ds n (m + 1) k))) := by
  obtain ⟨hA, hB, hC⟩ := hI
  have hsupk : supplied ds (m + 1) k :=
    (supplied_succ_iff ds m k).mpr (Or.inr (by simp [hvk]))
  have hkne : k ≠ "_" ++ k := by
    intro hc
    have hs := startsWithUnderscore_append k
    rw [← hc, hundk] at hs
    exact Bool.noConfusion hs
  have hget : ∀ x, x ≠ k → x ≠ "_" ++ k →
      dictGet (dictSet (dictSet I k (InfoCell.varr (specArr ds n v0 (m + 1) k)))
        ("_" ++ k) (InfoCell.marr (specMask ds n (m + 1) k))) x = dictGet I x := by
    intro x h1 h2
    rw [dictGet_dictSet_ne _ _ _ _ h2, dictGet_dictSet_ne _ _ _ _ h1]
  have hgetk : dictGet (dictSet (dictSet I k (InfoCell.varr (specArr ds n v0 (m + 1) k)))
      ("_" ++ k) (InfoCell.marr (specMask ds n (m + 1) k))) k =
      some (InfoCell.varr (specArr ds n v0 (m + 1) k)) := by
    rw [dictGet_dictSet_ne _ _ _ _ hkne, dictGet_dictSet_self]
  have hgetm : dictGet (dictSet (dictSet I k (InfoCell.varr (specArr ds n v0 (m + 1) k)))
      ("_" ++ k) (InfoCell.marr (specMask ds n (m + 1) k))) ("_" ++ k) =
      some (InfoCell.marr (specMask ds n (m + 1) k)) := dictGet_dictSet_self _ _ _
  refine ⟨keys_dictSet_nodup _ _ _ (keys_dictSet_nodup _ _ _ hA), ?_, ?_⟩
  · intro k' cell' hk'
    by_cases h2 : k' = "_" ++ k
    · subst h2
      rw [hgetm] at hk'
      refine Or.inr ⟨k, rfl, hundk, ?_, ?_⟩
      · simpa using (Option.some.inj hk').symm
      · simp [hsupk]
    · by_cases h1 : k' = k
      · subst h1
        rw [hgetk] at hk'
        refine Or.inl ⟨hundk, ?_, ?_⟩
        · simpa using (Option.some.inj hk').symm
        · simp [hsupk]
      · rw [hget k' h1 h2] at hk'
        rcases hB k' cell' hk' with ⟨hu, hc, hs⟩ | ⟨k0, hk0, hu0, hc0, hs0⟩
        · refine Or.inl ⟨hu, ?_, ?_⟩
          · by_cases hP' : k' ∈ P
            · rw [if_pos (List.mem_append.mpr (Or.inl hP'))]
              rwa [if_pos hP'] at hc
            · rw [if_neg (by simp [hP', h1])]
              rwa [if_neg hP'] at hc
          · by_cases hP' : k' ∈ P
            · rw [if_pos (List.mem_append.mpr (Or.inl hP'))]
              rwa [if_pos hP'] at hs
            · rw [if_neg (by simp [hP', h1])]
              rwa [if_neg hP'] at hs
        · have hk0k : k0 ≠ k := by
            intro hc
            exact h2 (by rw [hk0, hc])
          refine Or.inr ⟨k0, hk0, hu0, ?_, ?_⟩
          · by_cases hP' : k0 ∈ P
            · rw [if_pos (List.mem_append.mpr (Or.inl hP'))]
              rwa [if_pos hP'] at hc0
            · rw [if_neg (by simp [hP', hk0k])]
              rwa [if_neg hP'] at hc0
          · by_cases hP' : k0 ∈ P
            · rw [if_pos (List.mem_append.mpr (Or.inl hP'))]
              rwa [if_pos hP'] at hs0
            · rw [if_neg (by simp [hP', hk0k])]
              rwa [if_neg hP'] at hs0
  · intro k' hsup'
    by_cases h1 : k' = k
    · subst h1
      constructor
      · simp [hgetk]
      · simp [hgetm]
    · have hold : supplied ds m k' ∨ k' ∈ P := by
        rcases hsup' with hs | hp
        · exact Or.inl hs
        · rw [List.mem_append, List.mem_singleton] at hp
          exact Or.inr (hp.resolve_right h1)
      have hCk := hC k' hold
      constructor
      · by_cases h2 : k' = "_" ++ k
        · subst h2
          simp [hgetm]
        · rw [hget k' h1 h2]
          exact hCk.1
      · have hm1 : "_" ++ k' ≠ k := by
          intro hc
          have hs := startsWithUnderscore_append k'
          rw [hc, hundk] at hs
          exact Bool.noConfusion hs
        have hm2 : "_" ++ k' ≠ "_" ++ k := by
          intro hc
          exact h1 (underscore_append_inj hc)
        rw [hget _ hm1 hm2]
        exact hCk.2

/-- Folding environment `m`'s info dict entries into the aggregate succeeds and
maintains the staged invariant, advancing the processed-key set by the folded
keys. -/
theorem add_info_mix {V : Type} (ds : List (List (String × V))) (n : Nat)
    (v0 : V) (m : Nat) (hmn : m < n) :
    ∀ (r : List (String × V)) (P : List String) (I : List (String × InfoCell V)),
      (∀ kv ∈ r, dsVal ds kv.1 m = some kv.2) →
      (∀ kv ∈ r, GymVec.startsWithUnderscore kv.1 = false) →
      (∀ kv ∈ r, kv.1 ∉ P) →
      (r.map (fun e => e.1)).Nodup →
      MIX ds n v0 m P I →
      ∃ I', add_info n v0 I r m = Except.ok I' ∧
        MIX ds n v0 m (P ++ r.map (fun e => e.1)) I' := by
  intro r
  induction r with
  | nil =>
    intro P I _ _ _ _ hI
    exact ⟨I, rfl, by simpa using hI⟩
  | cons kv r ih =>
    obtain ⟨k, v⟩ := kv
    intro P I hval hund hdisj hnd hI
    have hvk : dsVal ds k m = some v := hval (k, v) (List.mem_cons_self _ _)
    have hundk : GymVec.startsWithUnderscore k = false :=
      hund (k, v) (List.mem_cons_self _ _)
    have hkP : k ∉ P := hdisj (k, v) (List.mem_cons_self _ _)
    simp only [List.map_cons, List.nodup_cons] at hnd
    have hins := MIX_insert ds n v0 m P I k v hundk hvk hkP hI
    obtain ⟨I', hEq, hMix⟩ := ih (P ++ [k]) _
      (fun kv h => hval kv (List.mem_cons_of_mem _ h))
      (fun kv h => hund kv (List.mem_cons_of_mem _ h))
      (fun kv h => by
        rw [List.mem_append, List.mem_singleton]
        rintro (hp | hk)
        · exact hdisj kv (List.mem_cons_of_mem _ h) hp
        · exact hnd.1 (hk ▸ List.mem_map.mpr ⟨kv, h, rfl⟩))
      hnd.2 hins
    refine ⟨I', ?_, by simpa [List.append_assoc] using hMix⟩
    cases hIk : dictGet I k with
    | none =>
      have hnsup : ¬ supplied ds m k := by
        intro hs
        have hsome := (hI.2.2 k (Or.inl hs)).1
        rw [hIk] at hsome
        simp at hsome
      have hnone : ∀ j, j < m → dsVal ds k j = none := by
        intro j hj
        cases hdv : dsVal ds k j with
        | none => rfl
        | some w => exact absurd ⟨j, hj, by simp [hdv]⟩ hnsup
      have hxs : (List.replicate n v0).set m v = specArr ds n v0 (m + 1) k :=
        replicate_set_specArr ds n v0 m k hmn v hvk hnone
      have hbs : (List.replicate n false).set m true = specMask ds n (m + 1) k :=
        replicate_set_specMask ds n m k hmn (by simp [hvk]) hnone
      simp only [add_info, hIk, init_info_arrays]
      rw [if_pos ⟨by simpa using hmn, by simpa using hmn⟩, hxs, hbs]
      exact hEq
    | some cell =>
      rcases hI.2.1 k cell hIk with ⟨hu, hc, hs⟩ | ⟨k0, hk0, hu0, hcx, hsx⟩
      · rw [if_neg hkP] at hc hs
        have hmaskSome := (hI.2.2 k (Or.inl hs)).2
        obtain ⟨mcell, hmk⟩ := Option.isSome_iff_exists.mp hmaskSome
        rcases hI.2.1 ("_" ++ k) mcell hmk with ⟨hu', _, _⟩ | ⟨k0, hk0, hu0, hc0, hs0⟩
        · exfalso
          have hsw := startsWithUnderscore_append k
          rw [hu'] at hsw
          exact Bool.noConfusion hsw
        · have hk0eq : k = k0 := underscore_append_inj hk0
          subst hk0eq
          rw [if_neg hkP] at hc0
          subst hc
          subst hc0
          have hxs := specArr_set ds n v0 m k hmn v hvk
          have hbs := specMask_set ds n m k hmn (by simp [hvk])
          simp only [add_info, hIk, hmk]
          rw [if_pos ⟨by simpa [specArr_length] using hmn,
            by simpa [specMask_length] using hmn⟩, hxs, hbs]
          exact hEq
      · exfalso
        have hsw := startsWithUnderscore_append k0
        rw [← hk0, hundk] at hsw
        exact Bool.noConfusion hsw

/-- Generic: `getD` at an in-range index is a member of the list. -/
theorem getD_mem {α : Type} (l : List α) (j : Nat) (d : α) (hj : j < l.length) :
    l.getD j d ∈ l := by
  rw [List.getD_eq_getElem?_getD, List.getElem?_eq_getElem hj]
  exact List.getElem_mem hj

/-- Under the info contract no environment supplies an underscore-prefixed
key, so `dsVal` of such a key is `none` everywhere. -/
theorem dsVal_underscore_none {V : Type} (ds : List (List (String × V)))
    (hund : ∀ d ∈ ds, ∀ kv ∈ d, GymVec.startsWithUnderscore kv.1 = false)
    (q : String) (hq : GymVec.startsWithUnderscore q = true) (i : Nat) :
    dsVal ds q i = none := by
  cases h : dsVal ds q i with
  | none => rfl
  | some w =>
    exfalso
    by_cases hi : i < ds.length
    · have hsome : (dictGet (ds.getD i []) q).isSome = true := by
        have : dsVal ds q i = dictGet (ds.getD i []) q := rfl
        rw [← this, h]
        rfl
      have hmem := (dictGet_isSome_iff_mem _ _).mp hsome
      obtain ⟨kv, hkv, hkeq⟩ := List.mem_map.mp hmem
      have := hund _ (getD_mem ds i [] hi) kv hkv
      rw [hkeq, hq] at this
      exact Bool.noConfusion this
    · have hnone : ds[i]? = none := List.getElem?_eq_none (by omega)
      have : dsVal ds q i = none := by
        show dictGet (ds.getD i []) q = none
        rw [List.getD_eq_getElem?_getD, hnone]
        rfl
      rw [h] at this
      exact Option.noConfusion this

/-- Once every key of environment `m`\x27s dict has been folded in, the staged
invariant becomes the plain invariant at stage `m + 1`. -/
theorem MIX_advance {V : Type} (ds : List (List (String × V))) (n : Nat)
    (v0 : V) (m : Nat) (I : List (String × InfoCell V))
    (h : MIX ds n v0 m ((ds.getD m []).map (fun e => e.1)) I) :
    MIX ds n v0 (m + 1) [] I := by
  obtain ⟨hA, hB, hC⟩ := h
  have hmem : ∀ k : String, k ∈ (ds.getD m []).map (fun e => e.1) ↔
      (dsVal ds k m).isSome = true := by
    intro k
    simp only [dsVal]
    exact (dictGet_isSome_iff_mem (ds.getD m []) k).symm
  refine ⟨hA, ?_, ?_⟩
  · intro k cell hk
    rcases hB k cell hk with ⟨hu, hc, hs⟩ | ⟨k0, hk0, hu0, hc0, hs0⟩
    · refine Or.inl ⟨hu, ?_, ?_⟩
      · rw [if_neg (by simp)]
        by_cases hkm : k ∈ (ds.getD m []).map (fun e => e.1)
        · rw [if_pos hkm] at hc
          exact hc
        · rw [if_neg hkm] at hc
          have hnone : dsVal ds k m = none :=
            Option.not_isSome_iff_eq_none.mp (fun hsome => hkm ((hmem k).mpr hsome))
          rw [specArr_stable ds n v0 m k hnone]
          exact hc
      · rw [if_neg (by simp)]
        by_cases hkm : k ∈ (ds.getD m []).map (fun e => e.1)
        · rw [if_pos hkm] at hs
          exact hs
        · rw [if_neg hkm] at hs
          exact supplied_mono ds m k hs
    · refine Or.inr ⟨k0, hk0, hu0, ?_, ?_⟩
      · rw [if_neg (by simp)]
        by_cases hkm : k0 ∈ (ds.getD m []).map (fun e => e.1)
        · rw [if_pos hkm] at hc0
          exact hc0
        · rw [if_neg hkm] at hc0
          have hnone : dsVal ds k0 m = none :=
            Option.not_isSome_iff_eq_none.mp (fun hsome => hkm ((hmem k0).mpr hsome))
          rw [specMask_stable ds n m k0 hnone]
          exact hc0
      · rw [if_neg (by simp)]
        by_cases hkm : k0 ∈ (ds.getD m []).map (fun e => e.1)
        · rw [if_pos hkm] at hs0
          exact hs0
        · rw [if_neg hkm] at hs0
          exact supplied_mono ds m k0 hs0
  · intro k hsup
    have hs : supplied ds (m + 1) k := by
      rcases hsup with hs | hs
      · exact hs
      · simp at hs
    rcases (supplied_succ_iff ds m k).mp hs with h1 | h1
    · exact hC k (Or.inl h1)
    · exact hC k (Or.inr ((hmem k).mpr h1))

/-- Aggregating the suffix of the round that starts at environment `m`
succeeds and carries the invariant through the whole suffix. -/
theorem aggregateAux_mix {V : Type} (ds : List (List (String × V))) (n : Nat)
    (v0 : V)
    (hWF : ∀ d ∈ ds, ((d.map (fun e => e.1)).Nodup ∧
      ∀ kv ∈ d, GymVec.startsWithUnderscore kv.1 = false)) :
    ∀ (suffix : List (List (String × V))) (m : Nat)
      (I : List (String × InfoCell V)),
      ds.drop m = suffix → m + suffix.length ≤ n →
      MIX ds n v0 m [] I →
      ∃ I', aggregateAux n v0 m I suffix = Except.ok I' ∧
        MIX ds n v0 (m + suffix.length) [] I' := by
  intro suffix
  induction suffix with
  | nil =>
    intro m I _ _ hI
    exact ⟨I, rfl, by simpa using hI⟩
  | cons d rest ih =>
    intro m I hdrop hlen hI
    have hlen' : m + 1 + rest.length ≤ n := by
      simp only [List.length_cons] at hlen
      omega
    have hmn : m < n := by omega
    have hdm : ds[m]? = some d := by
      have h0 : (ds.drop m)[0]? = ds[m + 0]? := List.getElem?_drop ds m 0
      rw [hdrop] at h0
      simpa using h0.symm
    have hgetD : ds.getD m [] = d := by
      rw [List.getD_eq_getElem?_getD, hdm]
      rfl
    have hdrest : ds.drop (m + 1) = rest := by
      rw [← List.tail_drop, hdrop]
      rfl
    have hdd : d ∈ ds.drop m := by
      rw [hdrop]
      exact List.mem_cons_self d rest
    have hmemd : d ∈ ds := List.mem_of_mem_drop hdd
    obtain ⟨hnd, hund⟩ := hWF d hmemd
    have hval : ∀ kv ∈ d, dsVal ds kv.1 m = some kv.2 := by
      intro kv hkv
      show dictGet (ds.getD m []) kv.1 = some kv.2
      rw [hgetD]
      exact dictGet_of_mem_nodup d kv.1 kv.2 hnd (by simpa using hkv)
    obtain ⟨I1, hEq1, hMix1⟩ :=
      add_info_mix ds n v0 m hmn d [] I hval hund (fun kv _ => by simp) hnd hI
    have hMix1' : MIX ds n v0 m (d.map (fun e => e.1)) I1 := by
      simpa using hMix1
    have hMix2 : MIX ds n v0 (m + 1) [] I1 := by
      apply MIX_advance
      rw [hgetD]
      exact hMix1'
    obtain ⟨I', hEq2, hMix'⟩ := ih (m + 1) I1 hdrest hlen' hMix2
    refine ⟨I', ?_, ?_⟩
    · simp only [aggregateAux, hEq1]
      exact hEq2
    · have harith : m + (d :: rest).length = m + 1 + rest.length := by
        simp only [List.length_cons]
        omega
      rw [harith]
      exact hMix'

/-- A full round of aggregation from the empty dict succeeds and yields the
stage-`n` invariant. -/
theorem aggregate_infos_mix {V : Type} (ds : List (List (String × V)))
    (n : Nat) (v0 : V) (hlen : ds.length = n)
    (hWF : ∀ d ∈ ds, ((d.map (fun e => e.1)).Nodup ∧
      ∀ kv ∈ d, GymVec.startsWithUnderscore kv.1 = false)) :
    ∃ I, aggregate_infos n v0 ds = Except.ok I ∧ MIX ds n v0 n [] I := by
  have hbase : MIX ds n v0 0 [] [] := by
    refine ⟨List.nodup_nil, ?_, ?_⟩
    · intro k cell h
      simp [dictGet] at h
    · intro k hk
      rcases hk with hs | hm
      · exact absurd hs (supplied_zero ds k)
      · simp at hm
  obtain ⟨I, hEq, hMix⟩ :=
    aggregateAux_mix ds n v0 hWF ds 0 [] rfl (by omega) hbase
  refine ⟨I, hEq, ?_⟩
  have : (0 : Nat) + ds.length = n := by omega
  rwa [this] at hMix

/-- No environment supplies the key `"episode"`, so the aggregate has no
`"episode"` entry and the episode-statistics pass of the adapter is the
identity. -/
theorem mix_no_episode {V : Type} (ds : List (List (String × V))) (n : Nat)
    (v0 : V) (hlen : ds.length = n)
    (hepi : ∀ d ∈ ds, ∀ kv ∈ d, kv.1 ≠ "episode")
    (I : List (String × InfoCell V)) (hMix : MIX ds n v0 n [] I) :
    dictGet I "episode" = none := by
  cases hIk : dictGet I "episode" with
  | none => rfl
  | some cell =>
    exfalso
    rcases hMix.2.1 "episode" cell hIk with ⟨hu, _, hs⟩ | ⟨k0, hk0, _, _, _⟩
    · rw [if_neg (by simp)] at hs
      obtain ⟨j, hj, hsome⟩ := hs
      have hmem : "episode" ∈ (ds.getD j []).map (fun e => e.1) := by
        apply (dictGet_isSome_iff_mem _ _).mp
        exact hsome
      obtain ⟨kv, hkv, hkeq⟩ := List.mem_map.mp hmem
      have hdj : ds.getD j [] ∈ ds := getD_mem ds j [] (by omega)
      exact hepi _ hdj kv hkv hkeq
    · have h1 := startsWithUnderscore_append k0
      rw [← hk0] at h1
      have h2 : GymVec.startsWithUnderscore "episode" = false := by decide
      rw [h2] at h1
      exact Bool.noConfusion h1

/-- Pointwise characterization of one key\x27s distribution pass of the
adapter: it succeeds when mask and value arrays are in step with the
per-environment list, leaves lengths unchanged, and writes exactly at the
masked indices. -/
theorem distributeKey_spec {V : Type} (k : String) :
    ∀ (bs : List Bool) (xs : List V) (li : List (List (String × V))),
      bs.length = xs.length → bs.length = li.length →
      ∃ li', distributeKey k bs xs li = Except.ok li' ∧
        li'.length = li.length ∧
        ∀ i : Nat, ∀ b : Bool, ∀ x : V, ∀ d : List (String × V),
          bs[i]? = some b → xs[i]? = some x → li[i]? = some d →
          li'[i]? = some (if b then dictSet d k x else d) := by
  intro bs
  induction bs with
  | nil =>
    intro xs li _ _
    refine ⟨li, rfl, rfl, ?_⟩
    intro i b x d hb _ _
    simp at hb
  | cons b bs ih =>
    intro xs li hx hli
    cases xs with
    | nil => simp at hx
    | cons x xs =>
      cases li with
      | nil => simp at hli
      | cons d li =>
        simp only [List.length_cons, Nat.add_right_cancel_iff] at hx hli
        obtain ⟨li2, hEq, hlen2, hidx⟩ := ih xs li hx hli
        cases b with
        | true =>
          refine ⟨dictSet d k x :: li2, ?_, by simp [hlen2], ?_⟩
          · simp only [distributeKey, hEq, Except.map]
          · intro i b0 x0 d0 hb0 hx0 hd0
            cases i with
            | zero =>
              simp only [List.getElem?_cons_zero, Option.some.injEq] at hb0 hx0 hd0
              subst hb0
              subst hx0
              subst hd0
              simp
            | succ j =>
              simp only [List.getElem?_cons_succ] at hb0 hx0 hd0 ⊢
              exact hidx j b0 x0 d0 hb0 hx0 hd0
        | false =>
          refine ⟨d :: li2, ?_, by simp [hlen2], ?_⟩
          · simp only [distributeKey, List.tail_cons, hEq, Except.map]
          · intro i b0 x0 d0 hb0 hx0 hd0
            cases i with
            | zero =>
              simp only [List.getElem?_cons_zero, Option.some.injEq] at hb0 hx0 hd0
              subst hb0
              subst hd0
              simp
            | succ j =>
              simp only [List.getElem?_cons_succ] at hb0 hx0 hd0 ⊢
              exact hidx j b0 x0 d0 hb0 hx0 hd0

/-- Accumulator characterization of the adapter\x27s key loop over the
aggregate: after processing `done` (with the whole dict being
`done ++ rest`), entry `i` of the per-environment list holds exactly the
already-processed keys that environment `i` supplied, with its values. -/
theorem convertLoop_spec {V : Type} (ds : List (List (String × V))) (n : Nat)
    (v0 : V)
    (hund : ∀ d ∈ ds, ∀ kv ∈ d, GymVec.startsWithUnderscore kv.1 = false)
    (I : List (String × InfoCell V)) (hMix : MIX ds n v0 n [] I) :
    ∀ (rest done : List (String × InfoCell V)) (li : List (List (String × V))),
      I = done ++ rest →
      li.length = n →
      (∀ i, i < n → ∀ q : String,
        dictGet (li.getD i []) q =
          if q ∈ done.map (fun e => e.1) then dsVal ds q i else none) →
      ∃ li', convertLoop I rest li = Except.ok li' ∧
        li'.length = n ∧
        (∀ i, i < n → ∀ q : String,
          dictGet (li'.getD i []) q =
            if q ∈ (done ++ rest).map (fun e => e.1) then dsVal ds q i
            else none) := by
  intro rest
  induction rest with
  | nil =>
    intro done li hsplit hlen hinv
    refine ⟨li, rfl, hlen, ?_⟩
    intro i hi q
    simp only [List.append_nil]
    exact hinv i hi q
  | cons e rest ih =>
    obtain ⟨k, cell⟩ := e
    intro done li hsplit hlen hinv
    have hmemI : (k, cell) ∈ I := by
      rw [hsplit]
      exact List.mem_append_right done (List.mem_cons_self _ _)
    have hIk : dictGet I k = some cell :=
      dictGet_of_mem_nodup I k cell hMix.1 hmemI
    cases hu : GymVec.startsWithUnderscore k with
    | true =>
      have hstep : convertLoop I ((k, cell) :: rest) li = convertLoop I rest li := by
        simp only [convertLoop]
        rw [if_pos hu]
      have hsplit' : I = (done ++ [(k, cell)]) ++ rest := by
        rw [hsplit]
        simp [List.append_assoc]
      have hinv' : ∀ i, i < n → ∀ q : String,
          dictGet (li.getD i []) q =
            if q ∈ (done ++ [(k, cell)]).map (fun e => e.1) then dsVal ds q i
            else none := by
        intro i hi q
        rw [hinv i hi q]
        by_cases hqd : q ∈ done.map (fun e => e.1)
        · rw [if_pos hqd, if_pos (by simp [hqd])]
        · by_cases hqk : q = k
          · subst hqk
            rw [if_neg hqd, if_pos (by simp)]
            exact (dsVal_underscore_none ds hund q hu i).symm
          · rw [if_neg hqd, if_neg (by simp [hqd, hqk])]
      obtain ⟨li', hEq2, hlen', hidx⟩ := ih (done ++ [(k, cell)]) li hsplit' hlen hinv'
      refine ⟨li', ?_, hlen', ?_⟩
      · rw [hstep]
        exact hEq2
      · intro i hi q
        have h3 := hidx i hi q
        simpa only [List.append_assoc, List.singleton_append] using h3
    | false =>
      rcases hMix.2.1 k cell hIk with ⟨_, hc, hs⟩ | ⟨k0, hk0, _, _, _⟩
      · rw [if_neg (by simp)] at hc hs
        have hmaskSome := (hMix.2.2 k (Or.inl hs)).2
        obtain ⟨mcell, hmk⟩ := Option.isSome_iff_exists.mp hmaskSome
        rcases hMix.2.1 ("_" ++ k) mcell hmk with ⟨hu2, _, _⟩ | ⟨k2, hk2, _, hc2, _⟩
        · exfalso
          have h1 := startsWithUnderscore_append k
          rw [hu2] at h1
          exact Bool.noConfusion h1
        · have hkk2 : k = k2 := underscore_append_inj hk2
          subst hkk2
          rw [if_neg (by simp)] at hc2
          subst hc
          subst hc2
          have hsplit' : I = (done ++ [(k, InfoCell.varr (specArr ds n v0 n k))]) ++ rest := by
            rw [hsplit]
            simp [List.append_assoc]
          have hknotdone : k ∉ done.map (fun e => e.1) := by
            have hnd := hMix.1
            rw [hsplit] at hnd
            simp only [List.map_append, List.map_cons] at hnd
            have hdisj := List.disjoint_of_nodup_append hnd
            intro hmem
            exact hdisj hmem (List.mem_cons_self _ _)
          obtain ⟨li2, hdEq, hdLen, hdIdx⟩ :=
            distributeKey_spec k (specMask ds n n k) (specArr ds n v0 n k) li
              (by rw [specMask_length, specArr_length])
              (by rw [specMask_length, hlen])
          have hstep : convertLoop I ((k, InfoCell.varr (specArr ds n v0 n k)) :: rest) li
              = convertLoop I rest li2 := by
            simp only [convertLoop]
            rw [if_neg (by simp [hu]), hmk]
            show (match distributeKey k (specMask ds n n k) (specArr ds n v0 n k) li with
              | Except.error e => Except.error e
              | Except.ok li3 => convertLoop I rest li3) = convertLoop I rest li2
            rw [hdEq]
          have hinv' : ∀ i, i < n → ∀ q : String,
              dictGet (li2.getD i []) q =
                if q ∈ (done ++ [(k, InfoCell.varr (specArr ds n v0 n k))]).map
                    (fun e => e.1) then dsVal ds q i
                else none := by
            intro i hi q
            have hili : i < li.length := by omega
            have hb : (specMask ds n n k)[i]? = some ((dsVal ds k i).isSome) := by
              rw [specMask_getElem ds n n k i hi]
              simp [hi]
            have hx : (specArr ds n v0 n k)[i]? = some ((dsVal ds k i).getD v0) := by
              rw [specArr_getElem ds n v0 n k i hi]
              simp [hi]
            have hd : li[i]? = some (li.getD i []) := by
              rw [List.getD_eq_getElem?_getD, List.getElem?_eq_getElem hili]
              rfl
            have h2 := hdIdx i ((dsVal ds k i).isSome) ((dsVal ds k i).getD v0)
              (li.getD i []) hb hx hd
            have hgd2 : li2.getD i [] = (if (dsVal ds k i).isSome then
                dictSet (li.getD i []) k ((dsVal ds k i).getD v0)
              else li.getD i []) := by
              conv_lhs => rw [List.getD_eq_getElem?_getD]
              rw [h2]
              rfl
            rw [hgd2]
            by_cases hqk : q = k
            · subst hqk
              have hmem2 : q ∈ (done ++ [(q, InfoCell.varr (specArr ds n v0 n q))]).map
                  (fun e => e.1) := by simp
              rw [if_pos hmem2]
              cases hdv : dsVal ds q i with
              | none =>
                rw [if_neg (by simp)]
                rw [hinv i hi q, if_neg hknotdone]
              | some w =>
                rw [if_pos (by simp)]
                exact dictGet_dictSet_self (li.getD i []) q w
            · by_cases hb2 : (dsVal ds k i).isSome = true
              · rw [if_pos hb2,
                  dictGet_dictSet_ne (li.getD i []) k q ((dsVal ds k i).getD v0) hqk]
                rw [hinv i hi q]
                by_cases hqd : q ∈ done.map (fun e => e.1)
                · rw [if_pos hqd, if_pos (by simp [hqd])]
                · rw [if_neg hqd, if_neg (by simp [hqd, hqk])]
              · rw [if_neg hb2]
                rw [hinv i hi q]
                by_cases hqd : q ∈ done.map (fun e => e.1)
                · rw [if_pos hqd, if_pos (by simp [hqd])]
                · rw [if_neg hqd, if_neg (by simp [hqd, hqk])]
          obtain ⟨li', hEq2, hlen', hidx⟩ :=
            ih (done ++ [(k, InfoCell.varr (specArr ds n v0 n k))]) li2 hsplit'
              (by omega) hinv'
          refine ⟨li', ?_, hlen', ?_⟩
          · rw [hstep]
            exact hEq2
          · intro i hi q
            have h3 := hidx i hi q
            simpa only [List.append_assoc, List.singleton_append] using h3
      · exfalso
        have h1 := startsWithUnderscore_append k0
        rw [← hk0, hu] at h1
        exact Bool.noConfusion h1

/-- C8: for a round of `num_envs` per-environment info dicts whose keys are
distinct within each dict, do not start with an underscore, and do not
include `"episode"`, the index-by-index `_add_info` aggregation succeeds; for
every supplied key `k` the aggregate holds a length-`num_envs` value array
whose entry `i` is the value environment `i` supplied (the default `v0`
where none was) and under `"_" ++ k` a parallel boolean mask true exactly at
the supplying indices; user keys never supplied are absent; and
`DictInfoToList._convert_info_to_list` maps the aggregate back to
per-environment dicts whose lookups agree exactly with the original round. -/
theorem c8_info_round_trip {V : Type} (ds : List (List (String × V)))
    (n : Nat) (v0 : V) (hn : ds.length = n)
    (hWF : ∀ d ∈ ds, ((d.map (fun e => e.1)).Nodup ∧
      ∀ kv ∈ d, GymVec.startsWithUnderscore kv.1 = false ∧ kv.1 ≠ "episode")) :
    ∃ I, aggregate_infos n v0 ds = Except.ok I ∧
      (∀ k : String, supplied ds n k →
        dictGet I k = some (InfoCell.varr (specArr ds n v0 n k)) ∧
        dictGet I ("_" ++ k) = some (InfoCell.marr (specMask ds n n k)) ∧
        (specArr ds n v0 n k).length = n ∧
        (specMask ds n n k).length = n ∧
        (∀ i, i < n →
          (specArr ds n v0 n k)[i]? = some ((dsVal ds k i).getD v0) ∧
          (specMask ds n n k)[i]? = some ((dsVal ds k i).isSome))) ∧
      (∀ k : String, GymVec.startsWithUnderscore k = false →
        ¬ supplied ds n k → dictGet I k = none) ∧
      (∃ out, convert_info_to_list n I = Except.ok out ∧ out.length = n ∧
        (∀ i, i < n → ∀ k : String, dictGet (out.getD i []) k = dsVal ds k i)) := by
  have hWF2 : ∀ d ∈ ds, ((d.map (fun e => e.1)).Nodup ∧
      ∀ kv ∈ d, GymVec.startsWithUnderscore kv.1 = false) :=
    fun d hd => ⟨(hWF d hd).1, fun kv hkv => ((hWF d hd).2 kv hkv).1⟩
  have hund : ∀ d ∈ ds, ∀ kv ∈ d, GymVec.startsWithUnderscore kv.1 = false :=
    fun d hd kv hkv => ((hWF d hd).2 kv hkv).1
  have hepi : ∀ d ∈ ds, ∀ kv ∈ d, kv.1 ≠ "episode" :=
    fun d hd kv hkv => ((hWF d hd).2 kv hkv).2
  obtain ⟨I, hAgg, hMix⟩ := aggregate_infos_mix ds n v0 hn hWF2
  refine ⟨I, hAgg, ?_, ?_, ?_⟩
  · intro k hsup
    obtain ⟨hvsome, hmsome⟩ := hMix.2.2 k (Or.inl hsup)
    obtain ⟨cell, hck⟩ := Option.isSome_iff_exists.mp hvsome
    obtain ⟨mcell, hmck⟩ := Option.isSome_iff_exists.mp hmsome
    have hku : GymVec.startsWithUnderscore k = false := by
      obtain ⟨j, hj, hjs⟩ := hsup
      have hmem := (dictGet_isSome_iff_mem _ _).mp hjs
      obtain ⟨kv, hkv, hkeq⟩ := List.mem_map.mp hmem
      have h4 := hund _ (getD_mem ds j [] (by omega)) kv hkv
      rw [hkeq] at h4
      exact h4
    rcases hMix.2.1 k cell hck with ⟨_, hc, _⟩ | ⟨k0, hk0, _, _, _⟩
    · rw [if_neg (by simp)] at hc
      rcases hMix.2.1 ("_" ++ k) mcell hmck with ⟨hu2, _, _⟩ | ⟨k2, hk2, _, hc2, _⟩
      · exfalso
        have h1 := startsWithUnderscore_append k
        rw [hu2] at h1
        exact Bool.noConfusion h1
      · have hkk2 : k = k2 := underscore_append_inj hk2
        subst hkk2
        rw [if_neg (by simp)] at hc2
        subst hc
        subst hc2
        refine ⟨hck, hmck, specArr_length ds n v0 n k, specMask_length ds n n k, ?_⟩
        intro i hi
        constructor
        · rw [specArr_getElem ds n v0 n k i hi]
          simp [hi]
        · rw [specMask_getElem ds n n k i hi]
          simp [hi]
    · exfalso
      have h1 := startsWithUnderscore_append k0
      rw [← hk0, hku] at h1
      exact Bool.noConfusion h1
  · intro k hku hns
    cases hck : dictGet I k with
    | none => rfl
    | some cell =>
      exfalso
      rcases hMix.2.1 k cell hck with ⟨_, _, hs⟩ | ⟨k0, hk0, _, _, _⟩
      · rw [if_neg (by simp)] at hs
        exact hns hs
      · have h1 := startsWithUnderscore_append k0
        rw [← hk0, hku] at h1
        exact Bool.noConfusion h1
  · have hepis : dictGet I "episode" = none := mix_no_episode ds n v0 hn hepi I hMix
    have hbase : ∀ i, i < n → ∀ q : String,
        dictGet ((List.replicate n ([] : List (String × V))).getD i []) q =
          if q ∈ ([] : List (String × InfoCell V)).map (fun e => e.1)
          then dsVal ds q i else none := by
      intro i hi q
      have hrep : (List.replicate n ([] : List (String × V))).getD i [] = [] := by
        rw [List.getD_eq_getElem?_getD, List.getElem?_replicate]
        simp [hi]
      rw [hrep]
      simp [dictGet]
    obtain ⟨out, hcEq, hclen, hcidx⟩ :=
      convertLoop_spec ds n v0 hund I hMix I [] (List.replicate n []) rfl
        (by simp) hbase
    refine ⟨out, ?_, hclen, ?_⟩
    · have hpe : process_episode_statistics I
          (List.replicate n ([] : List (String × V))) =
          Except.ok (I, List.replicate n []) := by
        unfold process_episode_statistics
        rw [hepis]
      simp only [convert_info_to_list, hpe]
      exact hcEq
    · intro i hi k
      have h3 := hcidx i hi k
      rw [h3]
      by_cases hkI : k ∈ (([] : List (String × InfoCell V)) ++ I).map (fun e => e.1)
      · rw [if_pos hkI]
      · rw [if_neg hkI]
        cases hdv : dsVal ds k i with
        | none => rfl
        | some w =>
          exfalso
          have hsup : supplied ds n k := ⟨i, hi, by rw [hdv]; rfl⟩
          have hsome := (hMix.2.2 k (Or.inl hsup)).1
          have hmem := (dictGet_isSome_iff_mem I k).mp hsome
          exact hkI (by simpa using hmem)

/-- Witness for the C8 round-trip at a concrete two-environment round in
which environment 0 supplies key `"a"` and environment 1 supplies keys
`"a"` and `"b"`. -/
theorem c8_witness :
    ([[("a", (5 : Nat))], [("a", 6), ("b", 7)]].length = 2) ∧
    (∀ d ∈ [[("a", (5 : Nat))], [("a", 6), ("b", 7)]],
      ((d.map (fun e => e.1)).Nodup ∧
        ∀ kv ∈ d, GymVec.startsWithUnderscore kv.1 = false ∧
          kv.1 ≠ "episode")) ∧
    (∃ I, aggregate_infos 2 0 [[("a", (5 : Nat))], [("a", 6), ("b", 7)]] =
        Except.ok I ∧
      (∀ k : String, supplied [[("a", 5)], [("a", 6), ("b", 7)]] 2 k →
        dictGet I k = some (InfoCell.varr
          (specArr [[("a", 5)], [("a", 6), ("b", 7)]] 2 0 2 k)) ∧
        dictGet I ("_" ++ k) = some (InfoCell.marr
          (specMask [[("a", 5)], [("a", 6), ("b", 7)]] 2 2 k)) ∧
        (specArr [[("a", 5)], [("a", 6), ("b", 7)]] 2 0 2 k).length = 2 ∧
        (specMask [[("a", 5)], [("a", 6), ("b", 7)]] 2 2 k).length = 2 ∧
        (∀ i, i < 2 →
          (specArr [[("a", 5)], [("a", 6), ("b", 7)]] 2 0 2 k)[i]? =
            some ((dsVal [[("a", 5)], [("a", 6), ("b", 7)]] k i).getD 0) ∧
          (specMask [[("a", 5)], [("a", 6), ("b", 7)]] 2 2 k)[i]? =
            some ((dsVal [[("a", 5)], [("a", 6), ("b", 7)]] k i).isSome))) ∧
      (∀ k : String, GymVec.startsWithUnderscore k = false →
        ¬ supplied [[("a", 5)], [("a", 6), ("b", 7)]] 2 k →
        dictGet I k = none) ∧
      (∃ out, convert_info_to_list 2 I = Except.ok out ∧ out.length = 2 ∧
        (∀ i, i < 2 → ∀ k : String, dictGet (out.getD i []) k =
          dsVal [[("a", 5)], [("a", 6), ("b", 7)]] k i))) :=
  ⟨by decide, by decide,
    c8_info_round_trip [[("a", 5)], [("a", 6), ("b", 7)]] 2 0 (by decide)
      (by decide)⟩

end GymVecInfo
